import Mathlib

/-!
# Verification of the `highway_dsl` workflow DSL

A shallow embedding of `src/highway_dsl/workflow_dsl.py`: the operator data
model, the YAML/JSON wire codec (modelled at the level of structured trees),
and the fluent `WorkflowBuilder`.  Python dictionaries are modelled as
insertion-ordered association lists, Python `timedelta` values as integer
microsecond counts (the exact internal representation of `timedelta`), floats
appearing in wire output as rationals, and arbitrary (`Any`-typed) payload
values as JSON-like trees.
-/

namespace HighwayDSL

/-- JSON-like wire value: the structured tree that `yaml.safe_load` /
`json.loads` produce and `yaml.dump` / `json.dumps` consume.  Python dicts
are kept as insertion-ordered association lists. -/
inductive JValue where
  | null : JValue
  | bool (b : Bool) : JValue
  | num (q : ℚ) : JValue
  | str (s : String) : JValue
  | arr (xs : List JValue) : JValue
  | obj (entries : List (String × JValue)) : JValue

/-- Lookup in an insertion-ordered association list (Python `dict.get`). -/
def alLookup {α : Type} (l : List (String × α)) (k : String) : Option α :=
  match l with
  | [] => none
  | (k', v) :: rest => if k' = k then some v else alLookup rest k

/-- Keys of an association list, in insertion order (Python `dict.keys()`). -/
def alKeys {α : Type} (l : List (String × α)) : List String := l.map Prod.fst

/-- Values of an association list, in insertion order (Python `dict.values()`). -/
def alValues {α : Type} (l : List (String × α)) : List α := l.map Prod.snd

/-- Python `d[k] = v`: replace in place if the key exists, else append. -/
def alSet {α : Type} (l : List (String × α)) (k : String) (v : α) : List (String × α) :=
  match l with
  | [] => [(k, v)]
  | (k', v') :: rest =>
      if k' = k then (k', v) :: rest else (k', v') :: alSet rest k v

@[simp] theorem alLookup_nil {α : Type} (k : String) : alLookup ([] : List (String × α)) k = none := rfl

@[simp] theorem alKeys_nil {α : Type} : alKeys ([] : List (String × α)) = [] := rfl

theorem alKeys_alSet {α : Type} (l : List (String × α)) (k : String) (v : α) :
    alKeys (alSet l k v) = if k ∈ alKeys l then alKeys l else alKeys l ++ [k] := by
  induction l with
  | nil => simp [alSet, alKeys]
  | cons hd tl ih =>
    obtain ⟨k', v'⟩ := hd
    by_cases hk : k' = k
    · subst hk
      simp [alSet, alKeys]
    · simp only [alSet, if_neg hk]
      have hmemiff : k ∈ alKeys ((k', v') :: tl) ↔ k ∈ alKeys tl := by
        simp [alKeys, Ne.symm hk]
      by_cases hmem : k ∈ alKeys tl
      · rw [if_pos (hmemiff.mpr hmem)]
        show k' :: alKeys (alSet tl k v) = alKeys ((k', v') :: tl)
        rw [ih, if_pos hmem]; rfl
      · rw [if_neg (fun h => hmem (hmemiff.mp h))]
        show k' :: alKeys (alSet tl k v) = alKeys ((k', v') :: tl) ++ [k]
        rw [ih, if_neg hmem]; rfl

theorem alLookup_alSet_self {α : Type} (l : List (String × α)) (k : String) (v : α) :
    alLookup (alSet l k v) k = some v := by
  induction l with
  | nil => simp [alSet, alLookup]
  | cons hd tl ih =>
    obtain ⟨k', v'⟩ := hd
    by_cases hk : k' = k
    · subst hk; simp [alSet, alLookup]
    · simp [alSet, hk, alLookup, ih]

theorem alLookup_alSet_ne {α : Type} (l : List (String × α)) (k k' : String) (v : α)
    (h : k ≠ k') : alLookup (alSet l k v) k' = alLookup l k' := by
  induction l with
  | nil => simp [alSet, alLookup, h]
  | cons hd tl ih =>
    obtain ⟨k0, v0⟩ := hd
    by_cases hk : k0 = k
    · subst hk; simp [alSet, alLookup, h]
    · simp [alSet, hk, alLookup, ih]

theorem alLookup_mem_keys {α : Type} (l : List (String × α)) (k : String) :
    k ∈ alKeys l ↔ (alLookup l k).isSome := by
  induction l with
  | nil => simp [alKeys, alLookup]
  | cons hd tl ih =>
    obtain ⟨k', v'⟩ := hd
    by_cases hk : k' = k
    · subst hk; simp [alKeys, alLookup]
    · show k ∈ k' :: alKeys tl ↔ _
      rw [List.mem_cons]
      show _ ↔ (alLookup ((k', v') :: tl) k).isSome = true
      unfold alLookup
      rw [if_neg hk]
      constructor
      · rintro (h | h)
        · exact absurd h.symm hk
        · exact ih.mp h
      · intro h; exact Or.inr (ih.mpr h)

/-- Lexicographic comparison of character lists by code point, mirroring
Python's string `<=`. -/
def charsLe : List Char → List Char → Bool
  | [], _ => true
  | _ :: _, [] => false
  | a :: as, b :: bs =>
      if a.toNat < b.toNat then true
      else if b.toNat < a.toNat then false
      else charsLe as bs

/-- Python string order (code-point lexicographic). -/
def strLe (a b : String) : Bool := charsLe a.data b.data

theorem charsLe_total (a b : List Char) : charsLe a b = true ∨ charsLe b a = true := by
  induction a generalizing b with
  | nil => left; rfl
  | cons x xs ih =>
    cases b with
    | nil => right; rfl
    | cons y ys =>
      by_cases hxy : x.toNat < y.toNat
      · left; simp [charsLe, hxy]
      · by_cases hyx : y.toNat < x.toNat
        · right; simp [charsLe, hyx]
        · rcases ih ys with h | h
          · left; simp [charsLe, hxy, hyx, h]
          · right; simp [charsLe, hxy, hyx, h]

theorem strLe_total (a b : String) : strLe a b = true ∨ strLe b a = true :=
  charsLe_total a.data b.data

/-- Insert into a `strLe`-sorted list. -/
def insertSorted (x : String) : List String → List String
  | [] => [x]
  | y :: ys => if strLe x y then x :: y :: ys else y :: insertSorted x ys

/-- Remove duplicates (keeping the last occurrence of each element). -/
def dedupStr : List String → List String
  | [] => []
  | x :: xs => if x ∈ xs then dedupStr xs else x :: dedupStr xs

/-- Python's `sorted(set(xs))` on strings: the increasing enumeration of the
distinct elements. -/
def sortedDedup (xs : List String) : List String :=
  (dedupStr xs).foldr insertSorted []

/-- Check that adjacent elements are in nondecreasing Python string order. -/
def isSortedLe : List String → Bool
  | [] => true
  | [_] => true
  | a :: b :: rest => strLe a b && isSortedLe (b :: rest)

theorem mem_insertSorted (x a : String) (l : List String) :
    a ∈ insertSorted x l ↔ a = x ∨ a ∈ l := by
  induction l with
  | nil => simp [insertSorted]
  | cons y ys ih =>
    by_cases h : strLe x y
    · simp [insertSorted, h]
    · simp only [insertSorted, if_neg h, List.mem_cons, ih]
      tauto

theorem isSortedLe_insertSorted (x : String) (l : List String)
    (h : isSortedLe l = true) : isSortedLe (insertSorted x l) = true := by
  induction l with
  | nil => rfl
  | cons y ys ih =>
    by_cases hxy : strLe x y
    · simp only [insertSorted, if_pos hxy, isSortedLe]
      simp [hxy, h]
    · have hyx : strLe y x = true := (strLe_total x y).resolve_left (by simpa using hxy)
      simp only [insertSorted, if_neg hxy]
      cases ys with
      | nil => simp [isSortedLe, insertSorted, hyx]
      | cons z zs =>
        have hs : isSortedLe (z :: zs) = true := by
          simp only [isSortedLe, Bool.and_eq_true] at h
          exact h.2
        have hyz : strLe y z = true := by
          simp only [isSortedLe, Bool.and_eq_true] at h
          exact h.1
        have htail := ih hs
        by_cases hxz : strLe x z
        · simp only [insertSorted, if_pos hxz] at htail ⊢
          simp only [isSortedLe, Bool.and_eq_true] at htail ⊢
          exact ⟨hyx, htail⟩
        · simp only [insertSorted, if_neg hxz] at htail ⊢
          simp only [isSortedLe, Bool.and_eq_true] at htail ⊢
          exact ⟨hyz, htail⟩

theorem nodup_insertSorted (x : String) (l : List String)
    (hx : x ∉ l) (h : l.Nodup) : (insertSorted x l).Nodup := by
  induction l with
  | nil => simp [insertSorted]
  | cons y ys ih =>
    by_cases hxy : strLe x y
    · simp only [insertSorted, if_pos hxy]
      refine List.nodup_cons.mpr ⟨hx, h⟩
    · simp only [insertSorted, if_neg hxy]
      have hy : y ∉ ys := (List.nodup_cons.mp h).1
      have hys : ys.Nodup := (List.nodup_cons.mp h).2
      have hxys : x ∉ ys := fun hm => hx (List.mem_cons_of_mem _ hm)
      have hxny : x ≠ y := fun he => hx (he ▸ List.mem_cons_self _ _)
      refine List.nodup_cons.mpr ⟨?_, ih hxys hys⟩
      intro hmem
      rcases (mem_insertSorted x y ys).mp hmem with he | hm
      · exact hxny he.symm
      · exact hy hm

theorem mem_dedupStr (xs : List String) (a : String) :
    a ∈ dedupStr xs ↔ a ∈ xs := by
  induction xs with
  | nil => simp [dedupStr]
  | cons x rest ih =>
    by_cases h : x ∈ rest
    · simp only [dedupStr, if_pos h, ih, List.mem_cons]
      constructor
      · exact Or.inr
      · rintro (rfl | hm)
        · exact h
        · exact hm
    · simp [dedupStr, if_neg h, ih]

theorem nodup_dedupStr (xs : List String) : (dedupStr xs).Nodup := by
  induction xs with
  | nil => simp [dedupStr]
  | cons x rest ih =>
    by_cases h : x ∈ rest
    · simpa [dedupStr, if_pos h] using ih
    · simp only [dedupStr, if_neg h]
      exact List.nodup_cons.mpr ⟨fun hm => h ((mem_dedupStr rest x).mp hm), ih⟩

theorem isSortedLe_sortedDedup (xs : List String) :
    isSortedLe (sortedDedup xs) = true := by
  unfold sortedDedup
  induction dedupStr xs with
  | nil => rfl
  | cons x rest ih => exact isSortedLe_insertSorted x _ ih

theorem mem_foldr_insertSorted (l : List String) (a : String) :
    a ∈ l.foldr insertSorted [] ↔ a ∈ l := by
  induction l with
  | nil => simp
  | cons x rest ih =>
    simp only [List.foldr_cons, mem_insertSorted, ih, List.mem_cons]

theorem mem_sortedDedup (xs : List String) (a : String) :
    a ∈ sortedDedup xs ↔ a ∈ xs := by
  unfold sortedDedup
  rw [mem_foldr_insertSorted, mem_dedupStr]

theorem nodup_foldr_insertSorted (l : List String) (h : l.Nodup) :
    (l.foldr insertSorted []).Nodup := by
  induction l with
  | nil => simp
  | cons x rest ih =>
    simp only [List.foldr_cons]
    have hx : x ∉ rest := (List.nodup_cons.mp h).1
    refine nodup_insertSorted x _ ?_ (ih (List.nodup_cons.mp h).2)
    intro hm
    exact hx ((mem_foldr_insertSorted rest x).mp hm)

theorem nodup_sortedDedup (xs : List String) : (sortedDedup xs).Nodup :=
  nodup_foldr_insertSorted _ (nodup_dedupStr xs)

/-- Does the string contain two adjacent underscores (Python `"__" in s`)? -/
def hasDunder (s : String) : Bool :=
  go s.data
where
  go : List Char → Bool
    | [] => false
    | [_] => false
    | a :: b :: rest => (a = '_' && b = '_') || go (b :: rest)

/-! ## Python regex and string modelling -/

/-- Character class `[a-z]`. -/
def isLowerAlpha (c : Char) : Bool := 'a' ≤ c && c ≤ 'z'

/-- Character class `[a-z0-9_]`. -/
def isNameTail (c : Char) : Bool := isLowerAlpha c || c.isDigit || c = '_'

/-- Core of `^[a-z][a-z0-9_]*$` (anchored at both ends, no newline slack). -/
def nameCore : List Char → Bool
  | [] => false
  | c :: cs => isLowerAlpha c && cs.all isNameTail

/-- Python `re.match(r"^[a-z][a-z0-9_]*$", s)`: `$` also matches just before a
single trailing newline. -/
def nameMatches (s : String) : Bool :=
  nameCore s.data ||
    (match s.data.getLast? with
     | some c => c = '\n' && nameCore s.data.dropLast
     | none => false)

/-- Character class `[a-zA-Z0-9._-]`. -/
def isVersionChar (c : Char) : Bool :=
  c.isAlphanum || c = '.' || c = '-' || c = '_'

/-- Core of `^[a-zA-Z0-9._-]+$`. -/
def versionCore (l : List Char) : Bool :=
  !l.isEmpty && l.all isVersionChar

/-- Python `re.match(r"^[a-zA-Z0-9._-]+$", s)` with trailing-newline slack. -/
def versionMatches (s : String) : Bool :=
  versionCore s.data ||
    (match s.data.getLast? with
     | some c => c = '\n' && versionCore s.data.dropLast
     | none => false)

/-- The `before`-mode validator `Workflow.validate_workflow_name_and_version`. -/
def validateNameVersion (name version : String) : Except String Unit :=
  if hasDunder name then
    .error ("Workflow name '" ++ name ++ "' cannot contain '__' (double underscore) - it's reserved as a separator")
  else if hasDunder version then
    .error ("Workflow version '" ++ version ++ "' cannot contain '__' (double underscore) - it's reserved as a separator")
  else if name ≠ "" && !nameMatches name then
    .error ("Workflow name '" ++ name ++ "' must start with lowercase letter and contain only lowercase letters, digits, and single underscores")
  else if version ≠ "" && !versionMatches version then
    .error ("Workflow version '" ++ version ++ "' must contain only alphanumeric characters, dots, hyphens, and underscores (semver compatible)")
  else
    .ok ()

/-! ## Durations and their wire form

Python `timedelta` is stored exactly as an integer number of microseconds, so
durations are modelled as `Int` microsecond counts.  `total_seconds()` yields
the rational `micros / 10^6`, and the f-string rendering of that float is
modelled by `pyFloatRepr` (decimal rendering; Python switches to scientific
notation only for magnitudes outside the ranges exercised here). -/

/-- Left-pad a numeral string with zeros to width `n`. -/
def padZeros (s : String) (n : Nat) : String :=
  if s.length ≥ n then s
  else String.mk (List.replicate (n - s.length) '0') ++ s

/-- Decimal float rendering of `micros / 10^6` (Python `repr` of the float
`timedelta.total_seconds()` for moderate magnitudes): always at least one
fractional digit, trailing zeros of the fraction stripped. -/
def pyFloatRepr (micros : Int) : String :=
  let sign := if micros < 0 then "-" else ""
  let m := micros.natAbs
  let whole := m / 1000000
  let frac := m % 1000000
  if frac = 0 then sign ++ toString whole ++ ".0"
  else
    let digits := (padZeros (toString frac) 6).data
    let stripped := (digits.reverse.dropWhile (· = '0')).reverse
    sign ++ toString whole ++ "." ++ String.mk stripped

/-- Rational seconds to `timedelta` microseconds (fractions beyond
microsecond resolution are truncated towards minus infinity). -/
def qToMicros (q : ℚ) : Int :=
  let r := q * 1000000
  Int.fdiv r.num (r.den : Int)

/-! ## Timestamps (`datetime`) -/

/-- A `datetime` value; `tz` is the UTC offset in microseconds of an aware
value (`None` for a naive one). -/
structure Timestamp where
  year : Nat
  month : Nat
  day : Nat
  hour : Nat
  minute : Nat
  second : Nat
  micro : Nat
  tz : Option Int := none
deriving DecidableEq, Repr

def daysInMonth (y m : Nat) : Nat :=
  if m = 2 then
    if y % 4 = 0 && (y % 100 ≠ 0 || y % 400 = 0) then 29 else 28
  else if m = 4 || m = 6 || m = 9 || m = 11 then 30
  else 31

def Timestamp.valid (t : Timestamp) : Bool :=
  1 ≤ t.year && t.year ≤ 9999 && 1 ≤ t.month && t.month ≤ 12 &&
  1 ≤ t.day && t.day ≤ daysInMonth t.year t.month &&
  t.hour ≤ 23 && t.minute ≤ 59 && t.second ≤ 59 && t.micro ≤ 999999

/-- `datetime._format_offset`: `±HH:MM[:SS[.ffffff]]` for a UTC offset given
in microseconds. -/
def offsetStr (off : Int) : String :=
  let sign := if off < 0 then "-" else "+"
  let o := off.natAbs
  let hh := o / 3600000000
  let rest := o % 3600000000
  let mm := rest / 60000000
  let rest2 := rest % 60000000
  let ss := rest2 / 1000000
  let us := rest2 % 1000000
  sign ++ padZeros (toString hh) 2 ++ ":" ++ padZeros (toString mm) 2 ++
    (if ss = 0 ∧ us = 0 then ""
     else ":" ++ padZeros (toString ss) 2 ++
       (if us = 0 then "" else "." ++ padZeros (toString us) 6))

/-- `datetime.isoformat()`: `YYYY-MM-DDTHH:MM:SS[.ffffff][±HH:MM[:SS[.ffffff]]]`
(fraction only when the microsecond field is nonzero, offset only for an
aware value). -/
def Timestamp.isoformat (t : Timestamp) : String :=
  padZeros (toString t.year) 4 ++ "-" ++ padZeros (toString t.month) 2 ++ "-" ++
    padZeros (toString t.day) 2 ++ "T" ++ padZeros (toString t.hour) 2 ++ ":" ++
    padZeros (toString t.minute) 2 ++ ":" ++ padZeros (toString t.second) 2 ++
    (if t.micro = 0 then "" else "." ++ padZeros (toString t.micro) 6) ++
    (match t.tz with
     | none => ""
     | some off => offsetStr off)

/-- Numeric value of a list of decimal digit characters. -/
def digitsVal (l : List Char) : Nat :=
  l.foldl (fun acc c => acc * 10 + (c.toNat - '0'.toNat)) 0

def allDigits (l : List Char) : Bool := l.all Char.isDigit

/-- `int()` of an exact-width all-digit slice `[pos, pos+len)` (the numeric
field parses of `datetime.fromisoformat`, which reject signs and spaces). -/
def sliceNat (l : List Char) (pos len : Nat) : Option Nat :=
  let sl := (l.drop pos).take len
  if sl.length = len ∧ allDigits sl then some (digitsVal sl) else none

def isLeap (y : Nat) : Bool := y % 4 = 0 && (y % 100 ≠ 0 || y % 400 = 0)

/-- `_DAYS_BEFORE_MONTH` (non-leap cumulative days). -/
def dbmTable : Nat → Nat
  | 1 => 0 | 2 => 31 | 3 => 59 | 4 => 90 | 5 => 120 | 6 => 151 | 7 => 181
  | 8 => 212 | 9 => 243 | 10 => 273 | 11 => 304 | 12 => 334 | _ => 0

/-- `_DAYS_IN_MONTH` (non-leap). -/
def dimTable : Nat → Nat
  | 1 => 31 | 2 => 28 | 3 => 31 | 4 => 30 | 5 => 31 | 6 => 30 | 7 => 31
  | 8 => 31 | 9 => 30 | 10 => 31 | 11 => 30 | 12 => 31 | _ => 0

/-- `_days_before_year`. -/
def daysBeforeYear (y : Nat) : Nat :=
  let yy := y - 1
  yy * 365 + yy / 4 - yy / 100 + yy / 400

/-- `_ymd2ord` for January 1st (all `fromisoformat` needs). -/
def ymd2ordJan1 (y : Nat) : Int := (daysBeforeYear y : Int) + 1

/-- `_ord2ymd`: proleptic-Gregorian ordinal (01-Jan-0001 = day 1) to
year/month/day; the year may fall outside `1..9999` for out-of-range
ordinals and is range-checked by the caller. -/
def ord2ymd (n0 : Int) : Int × Nat × Nat :=
  let n := n0 - 1
  let n400 := n.ediv 146097
  let n := n.emod 146097
  let year := n400 * 400 + 1
  let n100 := n.ediv 36524
  let n := n.emod 36524
  let n4 := n.ediv 1461
  let n := n.emod 1461
  let n1 := n.ediv 365
  let n := n.emod 365
  let year := year + n100 * 100 + n4 * 4 + n1
  if n1 = 4 ∨ n100 = 4 then (year - 1, 12, 31)
  else
    let leap := n1 = 3 ∧ (n4 ≠ 24 ∨ n100 = 3)
    let nn := n.toNat
    let month := (nn + 50) / 32
    let preceding := dbmTable month + (if 2 < month ∧ leap then 1 else 0)
    let (month, preceding) :=
      if preceding > nn then
        (month - 1,
         preceding - (dimTable (month - 1) + (if month - 1 = 2 ∧ leap then 1 else 0)))
      else (month, preceding)
    (year, month, nn - preceding + 1)

/-- `_isoweek1monday`: ordinal of the Monday starting ISO week 1. -/
def isoweek1monday (y : Nat) : Int :=
  let firstday := ymd2ordJan1 y
  let firstweekday := (firstday + 6).emod 7
  let week1monday := firstday - firstweekday
  if firstweekday > 3 then week1monday + 7 else week1monday

/-- `_isoweek_to_gregorian`: ISO year/week/weekday to a Gregorian date
(`none` on the range errors the Python helper raises). -/
def isoweekToGregorian (year week day : Nat) : Option (Int × Nat × Nat) := do
  guard (1 ≤ year ∧ year ≤ 9999)
  let weekOk :=
    if 0 < week ∧ week < 53 then True
    else if week = 53 then
      let firstWeekday := (ymd2ordJan1 year).emod 7
      firstWeekday = 4 ∨ (firstWeekday = 3 ∧ isLeap year = true)
    else False
  guard weekOk
  guard (0 < day ∧ day < 8)
  let dayOffset : Int := ((week - 1) * 7 + (day - 1) : Nat)
  pure (ord2ymd (isoweek1monday year + dayOffset))

/-- `_find_isoformat_datetime_separator` (`none` where Python raises). -/
def findIsoSep (l : List Char) : Option Nat :=
  let n := l.length
  if n = 7 then some 7
  else if (l.drop 4).take 1 = ['-'] then
    if (l.drop 5).take 1 = ['W'] then
      if n < 8 then none
      else if n > 8 ∧ (l.drop 8).take 1 = ['-'] then
        if n = 9 then none
        else if n > 10 ∧ ((l.drop 10).take 1).all Char.isDigit then some 8
        else some 10
      else some 8
    else some 10
  else if (l.drop 4).take 1 = ['W'] then
    let idx := 7 + ((l.drop 7).takeWhile Char.isDigit).length
    if idx < 9 then some idx
    else if idx % 2 = 0 then some 7
    else some 8
  else some 8

/-- `_parse_isoformat_date` on a slice of length 7, 8 or 10 (`none` where
Python raises); week dates may produce an out-of-range year, checked by the
caller. -/
def parseIsoDate (l : List Char) : Option (Int × Nat × Nat) := do
  let year ← sliceNat l 0 4
  let hasSep := (l.drop 4).take 1 = ['-']
  let sepN := if hasSep then 1 else 0
  let pos := 4 + sepN
  if (l.drop pos).take 1 = ['W'] then do
    let pos := pos + 1
    let weekno ← sliceNat l pos 2
    let pos := pos + 2
    let dayno ←
      if l.length > pos then do
        guard (((l.drop pos).take 1 = ['-']) = hasSep)
        sliceNat l (pos + sepN) 1
      else pure 1
    isoweekToGregorian year weekno dayno
  else do
    let month ← sliceNat l pos 2
    let pos := pos + 2
    guard (((l.drop pos).take 1 = ['-']) = hasSep)
    let day ← sliceNat l (pos + sepN) 2
    pure ((year : Int), month, day)

/-- `_FRACTION_CORRECTION`, indexed by the number of fraction digits. -/
def fractionCorrection : Nat → Nat
  | 1 => 100000 | 2 => 10000 | 3 => 1000 | 4 => 100 | 5 => 10 | _ => 1

/-- The fractional tail of `parse_hh_mm_ss_ff` (C implementation): up to six
fraction digits (scaled to microseconds), any further characters must also
be digits and are discarded. -/
def hmsfFraction (l : List Char) (p h m s : Nat) :
    Option (Nat × Nat × Nat × Nat × Nat) := do
  let rest := l.drop p
  let toParse := min 6 rest.length
  let digs := rest.take toParse
  guard (allDigits digs)
  let us := digitsVal digs *
    (if 0 < toParse ∧ toParse < 6 then fractionCorrection toParse else 1)
  guard (allDigits (rest.drop toParse))
  pure (h, m, s, us, 0)

/-- `parse_hh_mm_ss_ff` as the C `_datetime` module implements it (the
version that actually runs; it differs from the pure-Python one).  `l` is
the time slice and `past` the character immediately after it in the full
string (`NUL` at the true end of the input, the timezone sign otherwise).
Result `(h, m, s, us, rv)`: `rv = 0` when the slice was consumed exactly,
`rv = 1` when a trailing character was consumed as a would-be separator
(the caller tolerates this only when a timezone follows).  Each component
is two digits; after the first component the colon separator is either
used consistently or not at all; a `.` or `,` (or, with no separators,
any remaining digits after the seconds) starts the fraction. -/
def parseHMSFC (l : List Char) (past : Char) :
    Option (Nat × Nat × Nat × Nat × Nat) := do
  let n := l.length
  let charAt : Nat → Char := fun i => (l.get? i).getD past
  let h ← sliceNat l 0 2
  let c0 := charAt 2
  let hasSep := c0 = ':'
  if 3 ≥ n then pure (h, 0, 0, 0, if c0 = Char.ofNat 0 then 0 else 1)
  else do
    let p1 ←
      if c0 = ':' then pure 3
      else if c0 = '.' ∨ c0 = ',' then pure 3
      else pure 2
    if c0 = '.' ∨ c0 = ',' then hmsfFraction l 3 h 0 0
    else do
      let m ← sliceNat l p1 2
      let c1 := charAt (p1 + 2)
      if p1 + 3 ≥ n then pure (h, m, 0, 0, if c1 = Char.ofNat 0 then 0 else 1)
      else if c1 = ':' ∧ hasSep then do
        let s ← sliceNat l (p1 + 3) 2
        let c2 := charAt (p1 + 5)
        if p1 + 6 ≥ n then pure (h, m, s, 0, if c2 = Char.ofNat 0 then 0 else 1)
        else if c2 = ':' ∨ c2 = '.' ∨ c2 = ',' then hmsfFraction l (p1 + 6) h m s
        else none
      else if c1 = '.' ∨ c1 = ',' then hmsfFraction l (p1 + 3) h m 0
      else if ¬hasSep then do
        let s ← sliceNat l (p1 + 2) 2
        let c2 := charAt (p1 + 4)
        if p1 + 5 ≥ n then pure (h, m, s, 0, if c2 = Char.ofNat 0 then 0 else 1)
        else if c2 = '.' ∨ c2 = ',' then hmsfFraction l (p1 + 5) h m s
        else hmsfFraction l (p1 + 4) h m s
      else none

/-- `parse_isoformat_time` as the C `_datetime` module implements it: the
first `Z`/`+`/`-` character starts the timezone; the time before it may
leave one trailing character unparsed when a timezone follows; `Z` must be
final; a numeric offset parses like a time (fraction included), must consume
its string exactly, and must lie strictly within ±24 hours (the `timezone`
constructor's range check). -/
def parseIsoTimeC (l : List Char) :
    Option (Nat × Nat × Nat × Nat × Option Int) := do
  let tzPos := (l.takeWhile (fun c => ¬(c = 'Z' ∨ c = '+' ∨ c = '-'))).length
  if tzPos = l.length then do
    let (h, m, s, us, rv) ← parseHMSFC l (Char.ofNat 0)
    guard (rv = 0)
    pure (h, m, s, us, none)
  else do
    let signChar := (l.get? tzPos).getD 'Z'
    let (h, m, s, us, _) ← parseHMSFC (l.take tzPos) signChar
    if signChar = 'Z' then do
      guard (tzPos + 1 = l.length)
      pure (h, m, s, us, some 0)
    else do
      let (th, tm, ts, tus, rv2) ← parseHMSFC (l.drop (tzPos + 1)) (Char.ofNat 0)
      guard (rv2 = 0)
      let sign : Int := if signChar = '-' then -1 else 1
      let off := sign * (((th * 3600 + tm * 60 + ts) * 1000000 + tus : Nat) : Int)
      guard (-86400000000 < off ∧ off < 86400000000)
      pure (h, m, s, us, some off)

/-- `datetime.fromisoformat` (Python 3.11): any ISO 8601 extended or basic
date (including week dates), an arbitrary one-character separator, a time of
any precision with optional fraction, and an optional UTC offset; `none`
where Python raises (`ValueError` from parsing, the `timezone` range check
or the `datetime` constructor). -/
def pyFromIso (s : String) : Option Timestamp := do
  let l := s.data
  guard (l.length ≥ 7)
  let sepLoc ← findIsoSep l
  let dstr := l.take sepLoc
  let tstr := l.drop (sepLoc + 1)
  let (y, mo, d) ← parseIsoDate dstr
  let (h, mi, sec, us, tzi) ←
    if sepLoc ≥ l.length then pure (0, 0, 0, 0, none)
    else parseIsoTimeC tstr
  guard (1 ≤ y ∧ y ≤ 9999)
  let t : Timestamp := { year := y.toNat, month := mo, day := d, hour := h,
                         minute := mi, second := sec, micro := us, tz := tzi }
  if t.valid then some t else none

/-! ## `WaitOperator.wait_for` -/

/-- The in-memory value of `wait_for`: a `timedelta` (microseconds), a
`datetime`, or a plain string. -/
inductive WaitFor where
  | dur (micros : Int) : WaitFor
  | dt (t : Timestamp) : WaitFor
  | str (s : String) : WaitFor
deriving DecidableEq, Repr

/-- One regex group `(?:(\d+)U)?`: a maximal digit run must be immediately
followed by the unit character, otherwise the group matches nothing. -/
def ptUnitGroup (u : Char) (l : List Char) : Option Nat × List Char :=
  let ds := l.takeWhile Char.isDigit
  let rest := l.dropWhile Char.isDigit
  if ds.isEmpty then (none, l)
  else
    match rest with
    | c :: rest' => if c = u then (some (digitsVal ds), rest') else (none, l)
    | [] => (none, l)

/-- Microseconds denoted by an integer digit run `ds` and a fraction digit
run `fs` (`ds.fs` seconds); fractional digits beyond microsecond resolution
are truncated. -/
def decimalMicros (ds fs : List Char) : Nat :=
  digitsVal ds * 1000000 +
    digitsVal (fs.take 6 ++ List.replicate (6 - fs.length) '0')

/-- The group `(?:(\d+(?:\.\d+)?)S)?`: integer or decimal seconds followed by
`S`, otherwise nothing.  Returns the captured value in microseconds. -/
def ptSecondsGroup (l : List Char) : Option Nat × List Char :=
  let ds := l.takeWhile Char.isDigit
  let rest := l.dropWhile Char.isDigit
  if ds.isEmpty then (none, l)
  else
    match rest with
    | 'S' :: rest' => (some (decimalMicros ds []), rest')
    | '.' :: rest' =>
        let fs := rest'.takeWhile Char.isDigit
        let rest'' := rest'.dropWhile Char.isDigit
        if fs.isEmpty then (none, l)
        else
          match rest'' with
          | 'S' :: r => (some (decimalMicros ds fs), r)
          | _ => (none, l)
    | _ => (none, l)

/-- `re.match(r"PT(?:(\d+)H)?(?:(\d+)M)?(?:(\d+(?:\.\d+)?)S)?", s)` on a
string that starts with `PT`, converted to `timedelta` microseconds the way
`parse_wait_for` does (`timedelta(hours=h, minutes=m, seconds=s)`). -/
def ptParseMicros (s : String) : Int :=
  let l := s.data.drop 2
  let (h, l1) := ptUnitGroup 'H' l
  let (m, l2) := ptUnitGroup 'M' l1
  let (sec, _) := ptSecondsGroup l2
  ((h.getD 0 : Int) * 3600 + (m.getD 0 : Int) * 60) * 1000000 +
    (sec.getD 0 : Int)

/-- Python `float(seg)` on the decimal shapes used by the legacy
`duration:<seconds>` form (optional sign, digits, optional fraction),
converted directly to `timedelta` microseconds. -/
def parsePyFloatMicros (s : String) : Option Int := do
  let (neg, l) :=
    match s.data with
    | '-' :: rest => (true, rest)
    | '+' :: rest => (false, rest)
    | l => (false, l)
  let ds := l.takeWhile Char.isDigit
  let rest := l.dropWhile Char.isDigit
  guard (¬ds.isEmpty)
  let m ←
    match rest with
    | [] => some (decimalMicros ds [])
    | '.' :: fs => if allDigits fs then some (decimalMicros ds fs) else none
    | _ => none
  pure (if neg then -(m : Int) else (m : Int))

/-- Prefix test on code-point lists (Python `s.startswith(pre)`). -/
def listPre : List Char → List Char → Bool
  | [], _ => true
  | _ :: _, [] => false
  | a :: asx, b :: bs => a = b && listPre asx bs

/-- Python `s.startswith(pre)`. -/
def strStarts (s pre : String) : Bool := listPre pre.data s.data

/-- Python `s[n:]` (drop `n` code points). -/
def strDrop (s : String) (n : Nat) : String := String.mk (s.data.drop n)

/-- Python `s.split(":")[1]`: the segment between the first and second colon
of the part after the first colon. -/
def firstColonSegment (s : String) : String :=
  String.mk (s.data.takeWhile (· ≠ ':'))

/-- The `before`-mode validator `WaitOperator.parse_wait_for` applied to a
string value. -/
def normWaitStr (s : String) : Except String WaitFor :=
  if strStarts s "PT" then
    .ok (.dur (ptParseMicros s))
  else if strStarts s "duration:" then
    match parsePyFloatMicros (firstColonSegment (strDrop s 9)) with
    | some m => .ok (.dur m)
    | none => .error "could not convert string to float"
  else if strStarts s "datetime:" then
    match pyFromIso (strDrop s 9) with
    | some t => .ok (.dt t)
    | none => .error "Invalid isoformat string"
  else
    match pyFromIso s with
    | some t => .ok (.dt t)
    | none => .ok (.str s)

/-- `parse_wait_for` on an arbitrary in-memory `wait_for` argument:
`timedelta` and `datetime` values pass through, strings are normalized. -/
def normWaitArg : WaitFor → Except String WaitFor
  | .dur m => .ok (.dur m)
  | .dt t => .ok (.dt t)
  | .str s => normWaitStr s

/-- The `WaitOperator.model_dump` OVERRIDE's rendering of `wait_for`
(`f"PT{total_seconds()}S"` for a `timedelta`).  This method runs only when
`model_dump` is called directly on the operator instance (as the
repository's test does); pydantic v2's core serializer does not invoke a
nested model's overridden `model_dump` during `Workflow`-level
serialization, so this string never appears in `to_yaml`/`to_json` output
(see `waitForWire`). -/
def waitForDump : WaitFor → JValue
  | .dur m => .str ("PT" ++ pyFloatRepr m ++ "S")
  | .dt t => .str t.isoformat
  | .str s => .str s

/-- pydantic v2's JSON-mode serialization of a `timedelta`
(`ser_json_timedelta="iso8601"`, the default): pydantic-core splits the
value's sign and magnitude into days, seconds and microseconds and prints an
ISO-8601 duration, decomposing the days into 365-day years and the time part
into hours, minutes and seconds; zero components are omitted, a nonzero
microsecond part prints as a fraction with trailing zeros stripped, and the
zero duration prints as `PT0S`. -/
def pydanticDeltaStr (micros : Int) : String :=
  if micros = 0 then "PT0S"
  else
    let sign := if micros < 0 then "-" else ""
    let m := micros.natAbs
    let day := m / 86400000000
    let sec := (m / 1000000) % 86400
    let us := m % 1000000
    let datePart :=
      if day = 0 then ""
      else
        (if day / 365 = 0 then "" else toString (day / 365) ++ "Y") ++
          (if day % 365 = 0 then "" else toString (day % 365) ++ "D")
    let timePart :=
      if sec = 0 ∧ us = 0 then ""
      else
        let fracStr :=
          if us = 0 then ""
          else "." ++ String.mk
            (((padZeros (toString us) 6).data.reverse.dropWhile (· = '0')).reverse)
        "T" ++
          (if sec / 3600 = 0 then "" else toString (sec / 3600) ++ "H") ++
          (if sec % 3600 / 60 = 0 then "" else toString (sec % 3600 / 60) ++ "M") ++
          (if sec % 60 = 0 ∧ us = 0 then ""
           else toString (sec % 60) ++ fracStr ++ "S")
    sign ++ "P" ++ datePart ++ timePart

/-- `Workflow`-level wire rendering of `wait_for` (pydantic-core union
serialization, the form `to_yaml`/`to_json` actually emit): a `timedelta`
becomes pydantic's ISO-8601 duration string, a `datetime` its ISO string, a
plain string itself. -/
def waitForWire : WaitFor → JValue
  | .dur m => .str (pydanticDeltaStr m)
  | .dt t => .str t.isoformat
  | .str s => .str s

/-! ## Policies, enum wire values -/

/-- `RetryPolicy` (delay stored as `timedelta` microseconds). -/
structure RetryPolicy where
  max_retries : Int := 3
  delayMicros : Int := 5000000
  backoff_factor : ℚ := 2
deriving DecidableEq, Repr

/-- `TimeoutPolicy`. -/
structure TimeoutPolicy where
  timeoutMicros : Int
  kill_on_timeout : Bool := true
deriving DecidableEq, Repr

/-- Wire values of the `OperatorType` enum (all twelve members). -/
def operatorTypeValues : List String :=
  ["task", "condition", "wait", "parallel", "foreach", "switch", "try_catch",
   "while", "emit_event", "wait_for_event", "join", "activity"]

/-- Wire values of `TriggerRule`. -/
def triggerRuleValues : List String :=
  ["all_success", "all_done", "one_success", "one_done", "none_failed"]

/-- Wire values of `JoinMode`. -/
def joinModeValues : List String :=
  ["all_of", "any_of", "all_success", "one_success"]

/-! ## The operator model

Every operator carries the `BaseOperator` envelope.  Enum-typed fields are
stored as their wire strings, mirroring `ConfigDict(use_enum_values=True)`. -/

/-- The shared `BaseOperator` fields. -/
structure Envelope where
  task_id : String
  operator_type : String
  dependencies : List String := []
  trigger_rule : String := "all_success"
  retry_policy : Option RetryPolicy := none
  timeout_policy : Option TimeoutPolicy := none
  idempotency_key : Option String := none
  metadata : List (String × JValue) := []
  description : String := ""
  result_key : Option String := none
  on_success_task_id : Option String := none
  on_failure_task_id : Option String := none
  is_internal_loop_task : Bool := false
  is_internal_parallel_task : Bool := false

/-- The closed operator union.  `parallel` keeps `branch_workflows` as raw
serialized trees (its Python type is `dict[str, dict[str, Any]]`). -/
inductive Operator where
  | task (env : Envelope) (function : String) (args : List JValue)
      (kwargs : List (String × JValue)) : Operator
  | activity (env : Envelope) (function : String) (args : List JValue)
      (kwargs : List (String × JValue)) : Operator
  | condition (env : Envelope) (cond : String) (if_true : Option String)
      (if_false : Option String) : Operator
  | wait (env : Envelope) (wait_for : WaitFor) : Operator
  | parallel (env : Envelope) (branches : List (String × List String))
      (branch_workflows : List (String × JValue)) (timeout : Option Int) : Operator
  | foreach (env : Envelope) (items : String) (loop_body : List Operator)
      (par : Bool) : Operator
  | whileLoop (env : Envelope) (cond : String) (loop_body : List Operator) : Operator
  | emitEvent (env : Envelope) (event_name : String)
      (payload : List (String × JValue)) : Operator
  | waitForEvent (env : Envelope) (event_name : String)
      (timeout_seconds : Option Int) : Operator
  | switch (env : Envelope) (switch_on : String) (cases : List (String × String))
      (dflt : Option String) : Operator
  | join (env : Envelope) (join_tasks : List String) (join_mode : String) : Operator

/-- The envelope of an operator. -/
def Operator.env : Operator → Envelope
  | .task e _ _ _ => e
  | .activity e _ _ _ => e
  | .condition e _ _ _ => e
  | .wait e _ => e
  | .parallel e _ _ _ => e
  | .foreach e _ _ _ => e
  | .whileLoop e _ _ => e
  | .emitEvent e _ _ => e
  | .waitForEvent e _ _ => e
  | .switch e _ _ _ => e
  | .join e _ _ => e

/-- Apply a function to the envelope of an operator. -/
def Operator.withEnv (f : Envelope → Envelope) : Operator → Operator
  | .task e fn a k => .task (f e) fn a k
  | .activity e fn a k => .activity (f e) fn a k
  | .condition e c t fa => .condition (f e) c t fa
  | .wait e w => .wait (f e) w
  | .parallel e b bw t => .parallel (f e) b bw t
  | .foreach e i b p => .foreach (f e) i b p
  | .whileLoop e c b => .whileLoop (f e) c b
  | .emitEvent e n p => .emitEvent (f e) n p
  | .waitForEvent e n t => .waitForEvent (f e) n t
  | .switch e s c d => .switch (f e) s c d
  | .join e t m => .join (f e) t m

/-- `task.task_id`. -/
def Operator.taskId (op : Operator) : String := op.env.task_id

/-- `task.dependencies`. -/
def Operator.deps (op : Operator) : List String := op.env.dependencies

/-- `task.dependencies = ds` (assignment). -/
def Operator.withDeps (op : Operator) (ds : List String) : Operator :=
  op.withEnv (fun e => { e with dependencies := ds })

@[simp] theorem Operator.deps_withDeps (op : Operator) (ds : List String) :
    (op.withDeps ds).deps = ds := by
  cases op <;> rfl

@[simp] theorem Operator.taskId_withDeps (op : Operator) (ds : List String) :
    (op.withDeps ds).taskId = op.taskId := by
  cases op <;> rfl

/-- `task.is_internal_loop_task = True` (assignment). -/
def Operator.markInternalLoop (op : Operator) : Operator :=
  op.withEnv (fun e => { e with is_internal_loop_task := true })

/-- Is this a `TaskOperator` instance?  (`ActivityOperator` is a separate
subclass of `BaseOperator`, not of `TaskOperator`.) -/
def Operator.isTaskOperator : Operator → Bool
  | .task _ _ _ _ => true
  | _ => false

@[simp] theorem Operator.env_withEnv (f : Envelope → Envelope) (op : Operator) :
    (op.withEnv f).env = f op.env := by
  cases op <;> rfl

@[simp] theorem Operator.taskId_withEnv (f : Envelope → Envelope) (op : Operator)
    (h : ∀ e, (f e).task_id = e.task_id) : (op.withEnv f).taskId = op.taskId := by
  cases op <;> simp [Operator.taskId, Operator.withEnv, Operator.env, h]

/-! ## The workflow container -/

/-- The `Workflow` model.  `tasks` is an insertion-ordered map keyed by
`task_id`. -/
structure Workflow where
  name : String
  version : String := "2.0.0"
  description : String := ""
  tasks : List (String × Operator) := []
  variables' : List (String × JValue) := []
  start_task : Option String := none
  schedule : Option String := none
  start_date : Option Timestamp := none
  catchup : Bool := false
  is_paused : Bool := false
  tags : List String := []
  max_active_runs : Int := 1
  default_retry_policy : Option RetryPolicy := none

/-- `Workflow.add_task`: insert-or-replace keyed by `task.task_id`. -/
def Workflow.addTask (wf : Workflow) (op : Operator) : Workflow :=
  { wf with tasks := alSet wf.tasks op.taskId op }

/-- `Workflow.__init__` as the builder performs it: run the
name/version validator, then construct the (empty) model. -/
def mkWorkflow (name : String) (version : String := "2.0.0") :
    Except String Workflow := do
  _ ← validateNameVersion name version
  pure { name := name, version := version }

/-! ## Wire encoding

`Workflow.to_yaml` uses `model_dump(mode="json", exclude_none=True)` (unset
optional fields omitted); `Workflow.to_json` uses `model_dump_json` (optional
fields emitted as `null`).  Both are modelled as functions to the structured
tree `JValue`; the YAML/JSON text layer transports that tree. -/

/-- An optional field: omitted under `exclude_none`, else emitted as `null`. -/
def optField (exnone : Bool) (key : String) : Option JValue → List (String × JValue)
  | some v => [(key, v)]
  | none => if exnone then [] else [(key, .null)]

/-- Wire form of a `timedelta`-valued policy field: pydantic's ISO-8601
duration string (`ser_json_timedelta="iso8601"`, the default). -/
def timedeltaDump (micros : Int) : JValue :=
  .str (pydanticDeltaStr micros)

/-- Wire form of `RetryPolicy`. -/
def retryPolicyDump (p : RetryPolicy) : JValue :=
  .obj [("max_retries", .num (p.max_retries : ℚ)),
        ("delay", timedeltaDump p.delayMicros),
        ("backoff_factor", .num p.backoff_factor)]

/-- Wire form of `TimeoutPolicy`. -/
def timeoutPolicyDump (p : TimeoutPolicy) : JValue :=
  .obj [("timeout", timedeltaDump p.timeoutMicros),
        ("kill_on_timeout", .bool p.kill_on_timeout)]

/-- Wire entries of the shared envelope, in field-definition order. -/
def envelopeDump (exnone : Bool) (e : Envelope) : List (String × JValue) :=
  [("task_id", .str e.task_id),
   ("operator_type", .str e.operator_type),
   ("dependencies", .arr (e.dependencies.map .str)),
   ("trigger_rule", .str e.trigger_rule)] ++
  optField exnone "retry_policy" (e.retry_policy.map retryPolicyDump) ++
  optField exnone "timeout_policy" (e.timeout_policy.map timeoutPolicyDump) ++
  optField exnone "idempotency_key" (e.idempotency_key.map .str) ++
  [("metadata", .obj e.metadata),
   ("description", .str e.description)] ++
  optField exnone "result_key" (e.result_key.map .str) ++
  optField exnone "on_success_task_id" (e.on_success_task_id.map .str) ++
  optField exnone "on_failure_task_id" (e.on_failure_task_id.map .str) ++
  [("is_internal_loop_task", .bool e.is_internal_loop_task),
   ("is_internal_parallel_task", .bool e.is_internal_parallel_task)]

mutual

/-- Wire form of an operator (envelope fields, then variant fields). -/
def operatorDump (exnone : Bool) : Operator → JValue
  | .task e fn args kwargs =>
      .obj (envelopeDump exnone e ++
        [("function", .str fn), ("args", .arr args), ("kwargs", .obj kwargs)])
  | .activity e fn args kwargs =>
      .obj (envelopeDump exnone e ++
        [("function", .str fn), ("args", .arr args), ("kwargs", .obj kwargs)])
  | .condition e c t f =>
      .obj (envelopeDump exnone e ++ [("condition", .str c)] ++
        optField exnone "if_true" (t.map .str) ++
        optField exnone "if_false" (f.map .str))
  | .wait e w =>
      .obj (envelopeDump exnone e ++ [("wait_for", waitForWire w)])
  | .parallel e branches bw timeout =>
      .obj (envelopeDump exnone e ++
        [("branches", .obj (branches.map (fun p => (p.1, .arr (p.2.map .str))))),
         ("branch_workflows", .obj bw)] ++
        optField exnone "timeout" (timeout.map (fun n => .num (n : ℚ))))
  | .foreach e items body par =>
      .obj (envelopeDump exnone e ++
        [("items", .str items),
         ("loop_body", .arr (operatorDumpList exnone body)),
         ("parallel", .bool par)])
  | .whileLoop e c body =>
      .obj (envelopeDump exnone e ++
        [("condition", .str c),
         ("loop_body", .arr (operatorDumpList exnone body))])
  | .emitEvent e n payload =>
      .obj (envelopeDump exnone e ++
        [("event_name", .str n), ("payload", .obj payload)])
  | .waitForEvent e n t =>
      .obj (envelopeDump exnone e ++ [("event_name", .str n)] ++
        optField exnone "timeout_seconds" (t.map (fun x => .num (x : ℚ))))
  | .switch e s cases d =>
      .obj (envelopeDump exnone e ++
        [("switch_on", .str s),
         ("cases", .obj (cases.map (fun p => (p.1, .str p.2))))] ++
        optField exnone "default" (d.map .str))
  | .join e tasks mode =>
      .obj (envelopeDump exnone e ++
        [("join_tasks", .arr (tasks.map .str)), ("join_mode", .str mode)])

/-- Wire form of a `loop_body` list. -/
def operatorDumpList (exnone : Bool) : List Operator → List JValue
  | [] => []
  | x :: xs => operatorDump exnone x :: operatorDumpList exnone xs

end

/-- Wire form of a `Workflow` in field-definition order. -/
def workflowDump (exnone : Bool) (wf : Workflow) : JValue :=
  .obj ([("name", .str wf.name),
         ("version", .str wf.version),
         ("description", .str wf.description),
         ("tasks", .obj (wf.tasks.map (fun p => (p.1, operatorDump exnone p.2)))),
         ("variables", .obj wf.variables')] ++
        optField exnone "start_task" (wf.start_task.map .str) ++
        optField exnone "schedule" (wf.schedule.map .str) ++
        optField exnone "start_date" (wf.start_date.map (fun t => .str t.isoformat)) ++
        [("catchup", .bool wf.catchup),
         ("is_paused", .bool wf.is_paused),
         ("tags", .arr (wf.tags.map .str)),
         ("max_active_runs", .num (wf.max_active_runs : ℚ))] ++
        optField exnone "default_retry_policy" (wf.default_retry_policy.map retryPolicyDump))

/-- `Workflow.to_yaml`'s tree (`model_dump(mode="json", exclude_none=True)`). -/
def toYamlTree (wf : Workflow) : JValue := workflowDump true wf

/-- `Workflow.to_json`'s tree (`model_dump_json`, `null`s included). -/
def toJsonTree (wf : Workflow) : JValue := workflowDump false wf

/-! ## Wire decoding (`Workflow.model_validate`)

`Workflow.from_yaml` / `from_json` parse the text into a tree and run
`model_validate`: first the two `before`-mode validators (name/version check,
then `validate_tasks` with its tag-dispatch table), then per-field
validation.  Nested `loop_body` entries are validated against the untagged
operator union; pydantic's smart-union resolution is modelled as: try each
member in declaration order, keep the successes, and pick the one that
consumes the most recognized input fields (leftmost on ties). -/

/-- Names of the operator classes as they appear in the `loop_body` union. -/
inductive OpClass where
  | task | activity | condition | wait | parallel | foreach | whileLoop
  | emitEvent | waitForEvent | switch | join
deriving DecidableEq, Repr

/-- The union members in declaration order. -/
def opClasses : List OpClass :=
  [.task, .activity, .condition, .wait, .parallel, .foreach, .whileLoop,
   .emitEvent, .waitForEvent, .switch, .join]

/-- The dispatch table of `Workflow.validate_tasks` (note: no entry for
`"activity"` and none for `"try_catch"`). -/
def dispatchClass : String → Option OpClass
  | "task" => some .task
  | "condition" => some .condition
  | "wait" => some .wait
  | "parallel" => some .parallel
  | "foreach" => some .foreach
  | "while" => some .whileLoop
  | "emit_event" => some .emitEvent
  | "wait_for_event" => some .waitForEvent
  | "switch" => some .switch
  | "join" => some .join
  | _ => none

/-- The default `operator_type` wire value of each class. -/
def OpClass.defaultTag : OpClass → String
  | .task => "task"
  | .activity => "activity"
  | .condition => "condition"
  | .wait => "wait"
  | .parallel => "parallel"
  | .foreach => "foreach"
  | .whileLoop => "while"
  | .emitEvent => "emit_event"
  | .waitForEvent => "wait_for_event"
  | .switch => "switch"
  | .join => "join"

/-- Envelope field names (shared by every operator class). -/
def envelopeFieldNames : List String :=
  ["task_id", "operator_type", "dependencies", "trigger_rule", "retry_policy",
   "timeout_policy", "idempotency_key", "metadata", "description", "result_key",
   "on_success_task_id", "on_failure_task_id", "is_internal_loop_task",
   "is_internal_parallel_task"]

/-- Variant-specific field names of each class. -/
def OpClass.variantFieldNames : OpClass → List String
  | .task => ["function", "args", "kwargs"]
  | .activity => ["function", "args", "kwargs"]
  | .condition => ["condition", "if_true", "if_false"]
  | .wait => ["wait_for"]
  | .parallel => ["branches", "branch_workflows", "timeout"]
  | .foreach => ["items", "loop_body", "parallel"]
  | .whileLoop => ["condition", "loop_body"]
  | .emitEvent => ["event_name", "payload"]
  | .waitForEvent => ["event_name", "timeout_seconds"]
  | .switch => ["switch_on", "cases", "default"]
  | .join => ["join_tasks", "join_mode"]

/-- Number of input keys a class recognizes (its `model_fields_set` size). -/
def unionScore (c : OpClass) (entries : List (String × JValue)) : Nat :=
  (alKeys entries).countP
    (fun k => k ∈ envelopeFieldNames ∨ k ∈ c.variantFieldNames)

/-! ### Field readers -/

def readStr : JValue → Except String String
  | .str s => .ok s
  | _ => .error "Input should be a valid string"

def readBool : JValue → Except String Bool
  | .bool b => .ok b
  | _ => .error "Input should be a valid boolean"

def readInt : JValue → Except String Int
  | .num q => if q.den = 1 then .ok q.num else .error "Input should be a valid integer"
  | _ => .error "Input should be a valid integer"

def readStrList : JValue → Except String (List String)
  | .arr xs => xs.mapM readStr
  | _ => .error "Input should be a valid list"

def readObj : JValue → Except String (List (String × JValue))
  | .obj es => .ok es
  | _ => .error "Input should be a valid dictionary"

def readArr : JValue → Except String (List JValue)
  | .arr xs => .ok xs
  | _ => .error "Input should be a valid list"

/-- A `timedelta` field: accepts a fractional number of seconds or an
ISO-8601 `PT…` duration string. -/
def readTimedelta : JValue → Except String Int
  | .num q => .ok (qToMicros q)
  | .str s => if strStarts s "PT" then .ok (ptParseMicros s)
      else .error "Input should be a valid timedelta"
  | _ => .error "Input should be a valid timedelta"

/-- An optional field of element reader `f`: absent or `null` gives `none`. -/
def readOpt {α : Type} (f : JValue → Except String α)
    (entries : List (String × JValue)) (key : String) : Except String (Option α) :=
  match alLookup entries key with
  | none => .ok none
  | some .null => .ok none
  | some v => (f v).map some

/-- A field with a default value. -/
def readDefault {α : Type} (f : JValue → Except String α) (dflt : α)
    (entries : List (String × JValue)) (key : String) : Except String α :=
  match alLookup entries key with
  | none => .ok dflt
  | some v => f v

/-- A required field. -/
def readRequired {α : Type} (f : JValue → Except String α)
    (entries : List (String × JValue)) (key : String) : Except String α :=
  match alLookup entries key with
  | none => .error ("Field required: " ++ key)
  | some v => f v

/-- A required-but-nullable field (type `str | None` with no default):
missing is an error, `null` is accepted as `None`. -/
def readRequiredNullable (entries : List (String × JValue)) (key : String) :
    Except String (Option String) :=
  match alLookup entries key with
  | none => .error ("Field required: " ++ key)
  | some .null => .ok none
  | some v => (readStr v).map some

/-- A member of a string-valued enum. -/
def readEnum (values : List String) (v : JValue) : Except String String := do
  let s ← readStr v
  if s ∈ values then .ok s else .error ("Input should be a member of the enum: " ++ s)

def readRetryPolicy (v : JValue) : Except String RetryPolicy := do
  let es ← readObj v
  let mr ← readDefault readInt 3 es "max_retries"
  let d ← readDefault readTimedelta 5000000 es "delay"
  let bf ← readDefault (fun j => match j with
      | .num q => .ok q
      | _ => .error "Input should be a valid number") 2 es "backoff_factor"
  pure ⟨mr, d, bf⟩

def readTimeoutPolicy (v : JValue) : Except String TimeoutPolicy := do
  let es ← readObj v
  let t ← readRequired readTimedelta es "timeout"
  let k ← readDefault readBool true es "kill_on_timeout"
  pure ⟨t, k⟩

/-- Validation of the shared envelope fields. -/
def parseEnvelope (c : OpClass) (entries : List (String × JValue)) :
    Except String Envelope := do
  let tid ← readRequired readStr entries "task_id"
  let ot ← readDefault (readEnum operatorTypeValues) c.defaultTag entries "operator_type"
  let deps ← readDefault readStrList [] entries "dependencies"
  let tr ← readDefault (readEnum triggerRuleValues) "all_success" entries "trigger_rule"
  let rp ← readOpt readRetryPolicy entries "retry_policy"
  let tp ← readOpt readTimeoutPolicy entries "timeout_policy"
  let ik ← readOpt readStr entries "idempotency_key"
  let md ← readDefault readObj [] entries "metadata"
  let desc ← readDefault readStr "" entries "description"
  let rk ← readOpt readStr entries "result_key"
  let os ← readOpt readStr entries "on_success_task_id"
  let og ← readOpt readStr entries "on_failure_task_id"
  let il ← readDefault readBool false entries "is_internal_loop_task"
  let ip ← readDefault readBool false entries "is_internal_parallel_task"
  pure ⟨tid, ot, deps, tr, rp, tp, ik, md, desc, rk, os, og, il, ip⟩

/-- `wait_for` field validation after `parse_wait_for` has run. -/
def readWaitFor : JValue → Except String WaitFor
  | .str s => normWaitStr s
  | .num q => .ok (.dur (qToMicros q))
  | _ => .error "Input should be a valid wait_for value"

/-- `branches` field: mapping from branch name to list of task ids. -/
def readBranches (v : JValue) : Except String (List (String × List String)) := do
  let es ← readObj v
  es.mapM (fun p => do
    let l ← readStrList p.2
    pure (p.1, l))

/-- `branch_workflows` field: mapping from branch name to a raw dict tree. -/
def readBranchWorkflows (v : JValue) : Except String (List (String × JValue)) := do
  let es ← readObj v
  es.mapM (fun p => do
    let _ ← readObj p.2
    pure p)

/-- `cases` field of `SwitchOperator`. -/
def readCases (v : JValue) : Except String (List (String × String)) := do
  let es ← readObj v
  es.mapM (fun p => do
    let s ← readStr p.2
    pure (p.1, s))

/-- `model_validate` of one operator class on a tree; `recurse` validates the
entries of a nested `loop_body` list. -/
def parseOperatorCore (recurse : JValue → Except String Operator)
    (c : OpClass) (v : JValue) : Except String Operator := do
  let entries ← readObj v
  let env ← parseEnvelope c entries
  match c with
  | .task => do
      let fn ← readRequired readStr entries "function"
      let args ← readDefault readArr [] entries "args"
      let kwargs ← readDefault readObj [] entries "kwargs"
      pure (.task env fn args kwargs)
  | .activity => do
      let fn ← readRequired readStr entries "function"
      let args ← readDefault readArr [] entries "args"
      let kwargs ← readDefault readObj [] entries "kwargs"
      pure (.activity env fn args kwargs)
  | .condition => do
      let cond ← readRequired readStr entries "condition"
      let t ← readRequiredNullable entries "if_true"
      let f ← readRequiredNullable entries "if_false"
      pure (.condition env cond t f)
  | .wait => do
      let w ← readRequired readWaitFor entries "wait_for"
      pure (.wait env w)
  | .parallel => do
      let br ← readDefault readBranches [] entries "branches"
      let bw ← readDefault readBranchWorkflows [] entries "branch_workflows"
      let t ← readOpt readInt entries "timeout"
      pure (.parallel env br bw t)
  | .foreach => do
      let items ← readRequired readStr entries "items"
      let bodyJ ← readDefault readArr [] entries "loop_body"
      let body ← bodyJ.mapM recurse
      let par ← readDefault readBool false entries "parallel"
      pure (.foreach env items body par)
  | .whileLoop => do
      let cond ← readRequired readStr entries "condition"
      let bodyJ ← readDefault readArr [] entries "loop_body"
      let body ← bodyJ.mapM recurse
      pure (.whileLoop env cond body)
  | .emitEvent => do
      let n ← readRequired readStr entries "event_name"
      let p ← readDefault readObj [] entries "payload"
      pure (.emitEvent env n p)
  | .waitForEvent => do
      let n ← readRequired readStr entries "event_name"
      let ts ← readOpt readInt entries "timeout_seconds"
      pure (.waitForEvent env n ts)
  | .switch => do
      let so ← readRequired readStr entries "switch_on"
      let cs ← readDefault readCases [] entries "cases"
      let d ← readOpt readStr entries "default"
      pure (.switch env so cs d)
  | .join => do
      let jt ← readRequired readStrList entries "join_tasks"
      let jm ← readDefault (readEnum joinModeValues) "all_of" entries "join_mode"
      pure (.join env jt jm)

/-- Smart-union validation of a `loop_body` entry: try each union member in
declaration order, keep the successes, pick the one recognizing the most
input fields (leftmost on a tie).  Fuel bounds the nesting depth (every real
input's depth is below its size). -/
def parseLoopItem : Nat → JValue → Except String Operator
  | 0, _ => .error "maximum recursion depth exceeded"
  | fuel + 1, v => do
      let entries ← readObj v
      let best := opClasses.foldl
        (fun best c =>
          match parseOperatorCore (parseLoopItem fuel) c v with
          | .ok op =>
              let sc := unionScore c entries
              match best with
              | none => some (op, sc)
              | some (bop, bsc) => if bsc < sc then some (op, sc) else some (bop, bsc)
          | .error _ => best)
        none
      match best with
      | some (op, _) => .ok op
      | none => .error "Input should be a valid operator"

/-- `model_validate` of one operator class, with fuel for nested bodies. -/
def parseOperatorAs (fuel : Nat) (c : OpClass) (v : JValue) :
    Except String Operator :=
  parseOperatorCore (parseLoopItem fuel) c v

mutual

/-- Size of a tree (used as recursion fuel: nesting depth never exceeds it). -/
def sizeJ : JValue → Nat
  | .null => 1
  | .bool _ => 1
  | .num _ => 1
  | .str _ => 1
  | .arr xs => 1 + sizeJList xs
  | .obj es => 1 + sizeJEntries es

def sizeJList : List JValue → Nat
  | [] => 0
  | x :: xs => sizeJ x + sizeJList xs

def sizeJEntries : List (String × JValue) → Nat
  | [] => 0
  | (_, x) :: xs => sizeJ x + sizeJEntries xs

end

/-- The `validate_tasks` `before`-validator: dispatch on `operator_type`. -/
def parseTasksField (fuel : Nat) (v : JValue) :
    Except String (List (String × Operator)) := do
  let tentries ← readObj v
  tentries.mapM (fun p => do
    let te ← readObj p.2
    match alLookup te "operator_type" with
    | some (.str tag) =>
        match dispatchClass tag with
        | some c =>
            if tag = "" then .error "Unknown operator type: "
            else do
              let op ← parseOperatorAs fuel c p.2
              pure (p.1, op)
        | none => .error ("Unknown operator type: " ++ tag)
    | some _ => .error "Unknown operator type: None"
    | none => .error "Unknown operator type: None")

/-- `Workflow.model_validate` on a structured tree: the two `before`-mode
validators, then per-field validation.  This is the common core of
`Workflow.from_yaml` and `Workflow.from_json`. -/
def parseWorkflowTree (v : JValue) : Except String Workflow := do
  let entries ← readObj v
  let name0 ←
    match alLookup entries "name" with
    | some (.str s) => pure s
    | none => pure ""
    | some _ => .error "Invalid workflow name value"
  let version0 ←
    match alLookup entries "version" with
    | some (.str s) => pure s
    | none => pure ""
    | some _ => .error "Invalid workflow version value"
  _ ← validateNameVersion name0 version0
  let tasks ←
    match alLookup entries "tasks" with
    | none => pure []
    | some tv => parseTasksField (sizeJ tv) tv
  let name ← readRequired readStr entries "name"
  let version ← readDefault readStr "2.0.0" entries "version"
  let description ← readDefault readStr "" entries "description"
  let vars ← readDefault readObj [] entries "variables"
  let st ← readOpt readStr entries "start_task"
  let sch ← readOpt readStr entries "schedule"
  let sd ← readOpt (fun j => do
      let s ← readStr j
      match pyFromIso s with
      | some t => .ok t
      | none => .error "Input should be a valid datetime") entries "start_date"
  let cu ← readDefault readBool false entries "catchup"
  let ipz ← readDefault readBool false entries "is_paused"
  let tg ← readDefault readStrList [] entries "tags"
  let mar ← readDefault readInt 1 entries "max_active_runs"
  let drp ← readOpt readRetryPolicy entries "default_retry_policy"
  pure { name := name, version := version, description := description,
         tasks := tasks, variables' := vars, start_task := st, schedule := sch,
         start_date := sd, catchup := cu, is_paused := ipz, tags := tg,
         max_active_runs := mar, default_retry_policy := drp }

/-! ## The fluent builder

A builder program is a list of method calls; callback-shaped bodies
(`condition`, `parallel`, `foreach`, `while_loop`) are nested programs run on
a fresh sub-builder.  Builder state is `(workflow, current_task?)`; the
`parent` pointer of the Python class is stored but never read, so it is not
modelled.  Python's in-place object mutations are modelled by computing each
task's final value before it is stored (shared references mean the map entry
and any `loop_body` occurrence agree at that point). -/

/-- The envelope-level keyword arguments accepted by the builder methods
(`operator_config` in `WorkflowBuilder.task`).  `dependencies := some []`
and `none` are indistinguishable to the code (`kwargs.get("dependencies", [])`). -/
structure OpConfig where
  dependencies : Option (List String) := none
  retry_policy : Option RetryPolicy := none
  timeout_policy : Option TimeoutPolicy := none
  idempotency_key : Option String := none
  metadata : List (String × JValue) := []
  description : String := ""
  result_key : Option String := none
  on_success_task_id : Option String := none
  on_failure_task_id : Option String := none
  trigger_rule : String := "all_success"

/-- Envelope produced by an operator constructor call from the builder. -/
def OpConfig.toEnvelope (cfg : OpConfig) (tid otype : String) : Envelope :=
  { task_id := tid, operator_type := otype,
    dependencies := cfg.dependencies.getD [],
    trigger_rule := cfg.trigger_rule,
    retry_policy := cfg.retry_policy,
    timeout_policy := cfg.timeout_policy,
    idempotency_key := cfg.idempotency_key,
    metadata := cfg.metadata,
    description := cfg.description,
    result_key := cfg.result_key,
    on_success_task_id := cfg.on_success_task_id,
    on_failure_task_id := cfg.on_failure_task_id }

/-- Builder state: the workflow under construction and the chain tail. -/
structure BuilderState where
  workflow : Workflow
  current : Option String := none

/-- `WorkflowBuilder(name)`: constructs a fresh empty workflow (running the
name/version validator). -/
def freshBuilder (name : String) : Except String BuilderState := do
  let wf ← mkWorkflow name "2.0.0"
  pure { workflow := wf }

/-- Is `tid` referenced as some existing task's `on_success_task_id` or
`on_failure_task_id` (the handler check in `_add_task`)? -/
def isHandlerTask (wf : Workflow) (tid : String) : Bool :=
  (alValues wf.tasks).any (fun t =>
    t.env.on_failure_task_id = some tid || t.env.on_success_task_id = some tid)

/-- `WorkflowBuilder._add_task`: auto-threading of dependencies, canonical
`sorted(set(...))`, insertion, and advancing `current`. -/
def addTaskCore (st : BuilderState) (op : Operator)
    (explicitDeps : Option (List String)) : BuilderState :=
  let deps0 := explicitDeps.getD []
  let handler := isHandlerTask st.workflow op.taskId
  let deps1 :=
    match st.current with
    | some c => if deps0 = [] && !handler then deps0 ++ [c] else deps0
    | none => deps0
  let op' := op.withDeps (sortedDedup deps1)
  { workflow := st.workflow.addTask op', current := some op'.taskId }

/-- One builder method call.  Numeric defaults mirror the Python signatures. -/
inductive BOp where
  | task (tid fn : String) (args : List JValue) (kwargs : List (String × JValue))
      (cfg : OpConfig) : BOp
  | activity (tid fn : String) (args : List JValue) (kwargs : List (String × JValue))
      (cfg : OpConfig) : BOp
  | condition (tid cond : String) (ifTrue ifFalse : List BOp) (cfg : OpConfig) : BOp
  | wait (tid : String) (w : WaitFor) (cfg : OpConfig) : BOp
  | parallel (tid : String) (branches : List (String × List BOp)) (cfg : OpConfig) : BOp
  | foreach (tid items : String) (body : List BOp) (cfg : OpConfig) : BOp
  | whileLoop (tid cond : String) (body : List BOp) (cfg : OpConfig) : BOp
  | emitEvent (tid event : String) (payload : List (String × JValue))
      (cfg : OpConfig) : BOp
  | waitForEvent (tid event : String) (timeoutSeconds : Option Int)
      (cfg : OpConfig) : BOp
  | switch (tid switchOn : String) (cases : List (String × String))
      (dflt : Option String) (cfg : OpConfig) : BOp
  | join (tid : String) (joinTasks : List String) (mode : String)
      (cfg : OpConfig) : BOp
  | retry (maxRetries : Int) (delayMicros : Int) (backoff : ℚ) : BOp
  | timeoutCall (timeoutMicros : Int) (kill : Bool) : BOp
  | onSuccess (id : String) : BOp
  | onFailure (id : String) : BOp
  | setVariables (vars : List (String × JValue)) : BOp

/-- `WorkflowBuilder.retry` / `WorkflowBuilder.timeout`: mutate a policy of
the current task, but only when it is a `TaskOperator`. -/
def setPolicyOnCurrent (st : BuilderState) (f : Envelope → Envelope) : BuilderState :=
  match st.current with
  | none => st
  | some cid =>
      match alLookup st.workflow.tasks cid with
      | some op =>
          if op.isTaskOperator then
            { st with workflow :=
                { st.workflow with tasks := alSet st.workflow.tasks cid (op.withEnv f) } }
          else st
      | none => st

/-- `on_success` / `on_failure`: set the hook field on the current task. -/
def setHookOnCurrent (st : BuilderState) (f : Envelope → Envelope) : BuilderState :=
  match st.current with
  | none => st
  | some cid =>
      match alLookup st.workflow.tasks cid with
      | some op =>
          { st with workflow :=
              { st.workflow with tasks := alSet st.workflow.tasks cid (op.withEnv f) } }
      | none => st

/-- Append the container id to a branch/loop task's dependencies unless it is
already present. -/
def appendDep (tid : String) (op : Operator) : Operator :=
  if tid ∈ op.deps then op else op.withDeps (op.deps ++ [tid])

/-- Semantics of one builder call.  The fuel argument bounds the nesting
depth of callback bodies (Python's recursion is likewise stack-bounded);
`runProgram` supplies fuel exceeding the program's total size, so fuel never
runs out on an actual program. -/
def runOpF : Nat → BOp → BuilderState → Except String BuilderState
  | 0, _, _ => .error "maximum recursion depth exceeded"
  | fuel + 1, bop, st =>
    match bop with
  | .task tid fn args kwargs cfg =>
      .ok (addTaskCore st (.task (cfg.toEnvelope tid "task") fn args kwargs)
        cfg.dependencies)
  | .activity tid fn args kwargs cfg =>
      .ok (addTaskCore st (.activity (cfg.toEnvelope tid "activity") fn args kwargs)
        cfg.dependencies)
  | .wait tid w cfg => do
      let w' ← normWaitArg w
      .ok (addTaskCore st (.wait (cfg.toEnvelope tid "wait") w') cfg.dependencies)
  | .emitEvent tid ev payload cfg =>
      .ok (addTaskCore st (.emitEvent (cfg.toEnvelope tid "emit_event") ev payload)
        cfg.dependencies)
  | .waitForEvent tid ev ts cfg =>
      .ok (addTaskCore st (.waitForEvent (cfg.toEnvelope tid "wait_for_event") ev ts)
        cfg.dependencies)
  | .switch tid so cases d cfg =>
      .ok (addTaskCore st (.switch (cfg.toEnvelope tid "switch") so cases d)
        cfg.dependencies)
  | .join tid jt jm cfg =>
      .ok (addTaskCore st (.join (cfg.toEnvelope tid "join") jt jm) cfg.dependencies)
  | .condition tid cond bt bf cfg => do
      let trueB0 ← freshBuilder (tid ++ "_true")
      let trueB ← bt.foldlM (fun s op => runOpF fuel op s) trueB0
      let falseB0 ← freshBuilder (tid ++ "_false")
      let falseB ← bf.foldlM (fun s op => runOpF fuel op s) falseB0
      let op := Operator.condition (cfg.toEnvelope tid "condition") cond
        (alKeys trueB.workflow.tasks).head? (alKeys falseB.workflow.tasks).head?
      let st1 := addTaskCore st op cfg.dependencies
      let wf2 := (alValues trueB.workflow.tasks).foldl
        (fun acc t => acc.addTask (appendDep tid t)) st1.workflow
      let wf3 := (alValues falseB.workflow.tasks).foldl
        (fun acc t => acc.addTask (appendDep tid t)) wf2
      .ok { workflow := wf3, current := some tid }
  | .parallel tid branches cfg => do
      let subs ← branches.mapM (fun p => do
          let b0 ← freshBuilder (tid ++ "_" ++ String.mk (p.1.data.map Char.toLower))
          let b ← p.2.foldlM (fun s op => runOpF fuel op s) b0
          pure (p.1, b))
      let branchTasks := subs.map (fun p => (p.1, alKeys p.2.workflow.tasks))
      let branchWfs := subs.map (fun p => (p.1, toJsonTree p.2.workflow))
      let op := Operator.parallel (cfg.toEnvelope tid "parallel") branchTasks
        branchWfs none
      let st1 := addTaskCore st op cfg.dependencies
      .ok { st1 with current := some tid }
  | .foreach tid items body cfg => do
      let b0 ← freshBuilder (tid ++ "_loop")
      let b ← body.foldlM (fun s op => runOpF fuel op s) b0
      let marked := (alValues b.workflow.tasks).map Operator.markInternalLoop
      let loopTasks :=
        match marked with
        | [] => []
        | first :: rest => appendDep tid first :: rest
      let op := Operator.foreach (cfg.toEnvelope tid "foreach") items loopTasks false
      let st1 := addTaskCore st op cfg.dependencies
      let wf2 := loopTasks.foldl Workflow.addTask st1.workflow
      .ok { workflow := wf2, current := some tid }
  | .whileLoop tid cond body cfg => do
      let b0 ← freshBuilder (tid ++ "_loop")
      let b ← body.foldlM (fun s op => runOpF fuel op s) b0
      let marked := (alValues b.workflow.tasks).map Operator.markInternalLoop
      let loopTasks :=
        match marked with
        | [] => []
        | first :: rest => appendDep tid first :: rest
      let op := Operator.whileLoop (cfg.toEnvelope tid "while") cond loopTasks
      let st1 := addTaskCore st op cfg.dependencies
      let wf2 := loopTasks.foldl Workflow.addTask st1.workflow
      .ok { workflow := wf2, current := some tid }
  | .retry mr d bf =>
      .ok (setPolicyOnCurrent st (fun e => { e with retry_policy := some ⟨mr, d, bf⟩ }))
  | .timeoutCall t k =>
      .ok (setPolicyOnCurrent st (fun e => { e with timeout_policy := some ⟨t, k⟩ }))
  | .onSuccess sid =>
      .ok (setHookOnCurrent st (fun e => { e with on_success_task_id := some sid }))
  | .onFailure fid =>
      .ok (setHookOnCurrent st (fun e => { e with on_failure_task_id := some fid }))
  | .setVariables vars =>
      .ok { st with workflow :=
        { st.workflow with
            variables' :=
              vars.foldl (fun acc p => alSet acc p.1 p.2) st.workflow.variables' } }

/-- Run a chain of builder calls at a given nesting-fuel level. -/
def runChain (fuel : Nat) (ops : List BOp) (st : BuilderState) :
    Except String BuilderState :=
  ops.foldlM (fun s op => runOpF fuel op s) st

mutual

/-- Total size of a builder call (an upper bound for nesting depth). -/
def sizeB : BOp → Nat
  | .condition _ _ bt bf _ => 1 + sizeBList bt + sizeBList bf
  | .parallel _ bs _ => 1 + sizeBBranches bs
  | .foreach _ _ b _ => 1 + sizeBList b
  | .whileLoop _ _ b _ => 1 + sizeBList b
  | _ => 1

def sizeBList : List BOp → Nat
  | [] => 0
  | b :: bs => sizeB b + sizeBList bs

def sizeBBranches : List (String × List BOp) → Nat
  | [] => 0
  | (_, p) :: bs => sizeBList p + sizeBBranches bs

end

/-- The handler-reference check of `WorkflowBuilder.build`. -/
def checkHandlerRefs (keys : List String) :
    List (String × Operator) → Except String Unit
  | [] => .ok ()
  | (tid, op) :: rest =>
      match op.env.on_success_task_id with
      | some h =>
          if h ∉ keys then
            .error ("Task '" ++ tid ++ "' references non-existent on_success task '" ++ h ++ "'")
          else
            match op.env.on_failure_task_id with
            | some h' =>
                if h' ∉ keys then
                  .error ("Task '" ++ tid ++ "' references non-existent on_failure task '" ++ h' ++ "'")
                else checkHandlerRefs keys rest
            | none => checkHandlerRefs keys rest
      | none =>
          match op.env.on_failure_task_id with
          | some h' =>
              if h' ∉ keys then
                .error ("Task '" ++ tid ++ "' references non-existent on_failure task '" ++ h' ++ "'")
              else checkHandlerRefs keys rest
          | none => checkHandlerRefs keys rest

/-- `WorkflowBuilder.build`: validate hook references, then default
`start_task` to the first inserted key (a falsy `start_task`, `None` or the
empty string, is replaced). -/
def buildWorkflow (st : BuilderState) : Except String Workflow := do
  _ ← checkHandlerRefs (alKeys st.workflow.tasks) st.workflow.tasks
  let wf := st.workflow
  let falsyStart : Bool :=
    match wf.start_task with
    | none => true
    | some s => s = ""
  if falsyStart && !wf.tasks.isEmpty then
    pure { wf with start_task := (alKeys wf.tasks).head? }
  else
    pure wf

/-- Run a whole builder program from `WorkflowBuilder(name)` to `build()`. -/
def runProgram (name : String) (prog : List BOp) : Except String Workflow := do
  let st0 ← freshBuilder name
  let st ← runChain (sizeBList prog + 1) prog st0
  buildWorkflow st

/-! ## Observation helpers used by the statements below -/

/-- The wire tag of the variant an operator value belongs to (`type(op)`
discrimination, not the stored `operator_type` field). -/
def Operator.variantName : Operator → String
  | .task _ _ _ _ => "task"
  | .activity _ _ _ _ => "activity"
  | .condition _ _ _ _ => "condition"
  | .wait _ _ => "wait"
  | .parallel _ _ _ _ => "parallel"
  | .foreach _ _ _ _ => "foreach"
  | .whileLoop _ _ _ => "while"
  | .emitEvent _ _ _ => "emit_event"
  | .waitForEvent _ _ _ => "wait_for_event"
  | .switch _ _ _ _ => "switch"
  | .join _ _ _ => "join"

/-- Field `key` of task `tid` in a serialized workflow tree. -/
def wireTaskField (tree : JValue) (tid key : String) : Option JValue :=
  match tree with
  | .obj es =>
      match alLookup es "tasks" with
      | some (.obj ts) =>
          match alLookup ts tid with
          | some (.obj te) => alLookup te key
          | _ => none
      | _ => none
  | _ => none

/-- The keys of the `tasks` mapping of a serialized workflow tree. -/
def wireTaskKeys (tree : JValue) : List String :=
  match tree with
  | .obj es =>
      match alLookup es "tasks" with
      | some (.obj ts) => alKeys ts
      | _ => []
  | _ => []

/-- A minimal wire task mapping with the given `operator_type` tag. -/
def taskTreeWith (tag : String) (extra : List (String × JValue)) : JValue :=
  .obj ([("task_id", .str "t"), ("operator_type", .str tag)] ++ extra)

/-- A one-task wire workflow around the given task tree. -/
def wfTreeWith (t : JValue) : JValue :=
  .obj [("name", .str "w"), ("tasks", .obj [("t", t)])]

/-- The variant of the single decoded task of a one-task workflow tree. -/
def decodedVariant (v : JValue) : Except String (List String) :=
  (parseWorkflowTree v).map (fun wf => (alValues wf.tasks).map Operator.variantName)

/-- The loop-body list built by `foreach`/`while_loop`: every sub-builder
task marked internal, the first with the container id appended to its
dependencies. -/
def loopBodyTasks (tid : String) (b : BuilderState) : List Operator :=
  match (alValues b.workflow.tasks).map Operator.markInternalLoop with
  | [] => []
  | first :: rest => appendDep tid first :: rest

@[simp] theorem Operator.deps_markInternalLoop (op : Operator) :
    op.markInternalLoop.deps = op.deps := by
  cases op <;> rfl

@[simp] theorem Operator.taskId_markInternalLoop (op : Operator) :
    op.markInternalLoop.taskId = op.taskId := by
  cases op <;> rfl

theorem foldl_addTask_lookup_notmem (ts : List Operator) (wf : Workflow)
    (k : String) (hk : k ∉ ts.map Operator.taskId) :
    alLookup ((ts.foldl Workflow.addTask wf).tasks) k = alLookup wf.tasks k := by
  induction ts generalizing wf with
  | nil => rfl
  | cons hd tl ih =>
      simp only [List.map_cons, List.mem_cons, not_or] at hk
      rw [List.foldl_cons, ih _ hk.2]
      exact alLookup_alSet_ne _ _ _ _ (Ne.symm hk.1)

theorem foldl_addTask_lookup_mem (ts : List Operator) (wf : Workflow)
    (hnd : (ts.map Operator.taskId).Nodup) :
    ∀ t ∈ ts, alLookup ((ts.foldl Workflow.addTask wf).tasks) t.taskId = some t := by
  induction ts generalizing wf with
  | nil => intro t ht; cases ht
  | cons hd tl ih =>
      intro t ht
      simp only [List.map_cons, List.nodup_cons] at hnd
      rcases List.mem_cons.mp ht with rfl | htl
      · rw [List.foldl_cons, foldl_addTask_lookup_notmem tl _ _ hnd.1]
        exact alLookup_alSet_self _ _ _
      · rw [List.foldl_cons]
        exact ih _ hnd.2 t htl

/-! ## The builder invariant behind C4 and C7 -/

theorem alLookup_append {α : Type} (xs ys : List (String × α)) (k : String) :
    alLookup (xs ++ ys) k
      = match alLookup xs k with
        | some v => some v
        | none => alLookup ys k := by
  induction xs with
  | nil => simp [alLookup]
  | cons p rest ih =>
      obtain ⟨k', v⟩ := p
      by_cases h : k' = k
      · simp [alLookup, h]
      · simp [alLookup, h, ih]

theorem alLookup_mem {α : Type} (l : List (String × α)) (k : String) (v : α)
    (h : alLookup l k = some v) : (k, v) ∈ l := by
  induction l with
  | nil => cases h
  | cons p rest ih =>
      obtain ⟨k', v'⟩ := p
      by_cases hk : k' = k
      · subst hk
        simp [alLookup] at h
        simp [h]
      · simp [alLookup, hk] at h
        exact List.mem_cons_of_mem _ (ih h)

theorem mem_alSet_snd {α : Type} (l : List (String × α)) (k : String) (v : α)
    (p : String × α) (h : p ∈ alSet l k v) : p.2 = v ∨ p ∈ l := by
  induction l with
  | nil =>
      simp [alSet] at h
      simp [h]
  | cons q rest ih =>
      obtain ⟨k', v'⟩ := q
      by_cases hk : k' = k
      · simp [alSet, hk] at h
        rcases h with h | h
        · simp [h]
        · exact Or.inr (List.mem_cons_of_mem _ h)
      · simp [alSet, hk] at h
        rcases h with h | h
        · exact Or.inr (by simp [h])
        · rcases ih h with h' | h'
          · exact Or.inl h'
          · exact Or.inr (List.mem_cons_of_mem _ h')

theorem alLookup_optField_ne (ex : Bool) (key k : String) (o : Option JValue)
    (h : key ≠ k) : alLookup (optField ex key o) k = none := by
  cases o <;> cases ex <;> simp [optField, alLookup, h]

/-- A dumped task tree whose `is_internal_parallel_task` field is `false`. -/
def taskDumpClear : JValue → Prop
  | .obj fields => alLookup fields "is_internal_parallel_task" = some (.bool false)
  | _ => False

/-- All entries of a dumped `tasks` mapping are clear. -/
def tasksClear : List (String × JValue) → Prop
  | [] => True
  | (_, j) :: rest => taskDumpClear j ∧ tasksClear rest

/-- A dumped workflow tree all of whose tasks are clear. -/
def wfDumpClear : JValue → Prop
  | .obj fields =>
      match alLookup fields "tasks" with
      | some (.obj ts) => tasksClear ts
      | _ => False
  | _ => False

/-- All `branch_workflows` entries of a parallel operator are clear. -/
def branchesClear : List (String × JValue) → Prop
  | [] => True
  | (_, j) :: rest => wfDumpClear j ∧ branchesClear rest

mutual

/-- The invariant every operator stored by the builder satisfies: its
dependency list has no duplicates, its `is_internal_parallel_task` flag is
never set (the builder never assigns it), loop bodies consist of operators
marked `is_internal_loop_task` that satisfy the invariant themselves, and
parallel branch dumps contain only clear tasks. -/
def opInv : Operator → Prop
  | .task e _ _ _ => e.dependencies.Nodup ∧ e.is_internal_parallel_task = false
  | .activity e _ _ _ => e.dependencies.Nodup ∧ e.is_internal_parallel_task = false
  | .condition e _ _ _ => e.dependencies.Nodup ∧ e.is_internal_parallel_task = false
  | .wait e _ => e.dependencies.Nodup ∧ e.is_internal_parallel_task = false
  | .parallel e _ bw _ =>
      e.dependencies.Nodup ∧ e.is_internal_parallel_task = false ∧ branchesClear bw
  | .foreach e _ body _ =>
      e.dependencies.Nodup ∧ e.is_internal_parallel_task = false ∧ bodyInv body
  | .whileLoop e _ body =>
      e.dependencies.Nodup ∧ e.is_internal_parallel_task = false ∧ bodyInv body
  | .emitEvent e _ _ => e.dependencies.Nodup ∧ e.is_internal_parallel_task = false
  | .waitForEvent e _ _ => e.dependencies.Nodup ∧ e.is_internal_parallel_task = false
  | .switch e _ _ _ => e.dependencies.Nodup ∧ e.is_internal_parallel_task = false
  | .join e _ _ => e.dependencies.Nodup ∧ e.is_internal_parallel_task = false

/-- The invariant of a `loop_body` list: every member is flagged internal
and satisfies the operator invariant. -/
def bodyInv : List Operator → Prop
  | [] => True
  | t :: ts => t.env.is_internal_loop_task = true ∧ opInv t ∧ bodyInv ts

end

/-- The invariant of the builder's workflow-in-progress. -/
def stInv (wf : Workflow) : Prop := ∀ p ∈ wf.tasks, opInv p.2

theorem Operator.env_withDeps (op : Operator) (ds : List String) :
    (op.withDeps ds).env = { op.env with dependencies := ds } := by
  cases op <;> rfl

theorem opInv_withEnv (op : Operator) (f : Envelope → Envelope)
    (hd : ∀ e, (f e).dependencies = e.dependencies)
    (hp : ∀ e, (f e).is_internal_parallel_task = e.is_internal_parallel_task)
    (h : opInv op) : opInv (op.withEnv f) := by
  cases op <;> simp only [Operator.withEnv, opInv, hd, hp] at h ⊢ <;> exact h

theorem opInv_deps_nodup (op : Operator) (h : opInv op) : op.deps.Nodup := by
  cases op <;> exact h.1

theorem opInv_withDeps_of (op : Operator) (ds : List String) (hnd : ds.Nodup)
    (h : opInv op) : opInv (op.withDeps ds) := by
  cases op <;> simp only [Operator.withDeps, Operator.withEnv, opInv] at h ⊢ <;>
    exact ⟨hnd, h.2⟩

theorem opInv_appendDep (tid : String) (op : Operator) (h : opInv op) :
    opInv (appendDep tid op) := by
  unfold appendDep
  by_cases hin : tid ∈ op.deps
  · rw [if_pos hin]
    exact h
  · rw [if_neg hin]
    refine opInv_withDeps_of op _ ?_ h
    have hnd : op.deps.Nodup := opInv_deps_nodup op h
    simp [List.nodup_append, hnd, hin]

theorem bodyInv_mem (l : List Operator) (h : bodyInv l) :
    ∀ t ∈ l, t.env.is_internal_loop_task = true ∧ opInv t := by
  induction l with
  | nil => intro t ht; cases ht
  | cons hd tl ih =>
      intro t ht
      rcases List.mem_cons.mp ht with rfl | htl
      · exact ⟨h.1, h.2.1⟩
      · exact ih h.2.2 t htl

theorem bodyInv_map_mark (l : List Operator) (h : ∀ v ∈ l, opInv v) :
    bodyInv (l.map Operator.markInternalLoop) := by
  induction l with
  | nil => trivial
  | cons hd tl ih =>
      rw [List.map_cons]
      refine ⟨?_, ?_, ih (fun v hv => h v (List.mem_cons_of_mem _ hv))⟩
      · simp [Operator.markInternalLoop]
      · exact opInv_withEnv hd _ (fun _ => rfl) (fun _ => rfl)
          (h hd (List.mem_cons_self _ _))

theorem bodyInv_loopBodyTasks (tid : String) (b : BuilderState)
    (h : stInv b.workflow) : bodyInv (loopBodyTasks tid b) := by
  have hvals : ∀ v ∈ alValues b.workflow.tasks, opInv v := by
    intro v hv
    obtain ⟨p, hp, hpv⟩ := List.mem_map.mp hv
    exact hpv ▸ h p hp
  have hmk : bodyInv ((alValues b.workflow.tasks).map Operator.markInternalLoop) :=
    bodyInv_map_mark _ hvals
  unfold loopBodyTasks
  cases hc : (alValues b.workflow.tasks).map Operator.markInternalLoop with
  | nil => trivial
  | cons first rest =>
      rw [hc] at hmk
      show bodyInv (appendDep tid first :: rest)
      refine ⟨?_, opInv_appendDep tid first hmk.2.1, hmk.2.2⟩
      unfold appendDep
      by_cases hin : tid ∈ first.deps
      · rw [if_pos hin]
        exact hmk.1
      · rw [if_neg hin, Operator.env_withDeps]
        exact hmk.1

theorem freshBuilder_tasks (n : String) (b : BuilderState)
    (h : freshBuilder n = .ok b) : b.workflow.tasks = [] := by
  unfold freshBuilder mkWorkflow at h
  cases hv : validateNameVersion n "2.0.0" with
  | error e =>
      rw [hv] at h
      simp only [Except.bind] at h
      cases h
  | ok u =>
      rw [hv] at h
      simp only [Except.bind, pure, Except.pure] at h
      cases h
      rfl

theorem addTaskCore_inv (st : BuilderState) (op : Operator)
    (d : Option (List String)) (hst : stInv st.workflow)
    (hop : ∀ ds : List String, ds.Nodup → opInv (op.withDeps ds)) :
    stInv (addTaskCore st op d).workflow := by
  intro p hp
  rcases mem_alSet_snd st.workflow.tasks _ _ p hp with h | h
  · rw [h]
    exact hop _ (nodup_sortedDedup _)
  · exact hst p h

theorem foldl_addTask_inv (ts : List Operator) :
    ∀ wf : Workflow, (∀ t ∈ ts, opInv t) → stInv wf →
      stInv (ts.foldl Workflow.addTask wf) := by
  induction ts with
  | nil => intro wf _ hwf; exact hwf
  | cons hd tl ih =>
      intro wf hts hwf
      rw [List.foldl_cons]
      refine ih _ (fun t ht => hts t (List.mem_cons_of_mem _ ht)) ?_
      intro p hp
      rcases mem_alSet_snd wf.tasks _ _ p hp with h | h
      · rw [h]
        exact hts hd (List.mem_cons_self _ _)
      · exact hwf p h

theorem foldl_addTask_append_inv (tid : String) (ts : List Operator) :
    ∀ wf : Workflow, (∀ t ∈ ts, opInv t) → stInv wf →
      stInv (ts.foldl (fun acc t => acc.addTask (appendDep tid t)) wf) := by
  induction ts with
  | nil => intro wf _ hwf; exact hwf
  | cons hd tl ih =>
      intro wf hts hwf
      rw [List.foldl_cons]
      refine ih _ (fun t ht => hts t (List.mem_cons_of_mem _ ht)) ?_
      intro p hp
      rcases mem_alSet_snd wf.tasks _ _ p hp with h | h
      · rw [h]
        exact opInv_appendDep tid hd (hts hd (List.mem_cons_self _ _))
      · exact hwf p h

theorem setEnv_alSet_inv (st : BuilderState) (cid : String) (op : Operator)
    (f : Envelope → Envelope)
    (hd : ∀ e, (f e).dependencies = e.dependencies)
    (hp : ∀ e, (f e).is_internal_parallel_task = e.is_internal_parallel_task)
    (hst : stInv st.workflow) (hop : alLookup st.workflow.tasks cid = some op) :
    stInv { st.workflow with
              tasks := alSet st.workflow.tasks cid (op.withEnv f) } := by
  intro p hp'
  rcases mem_alSet_snd st.workflow.tasks cid (op.withEnv f) p hp' with h | h
  · rw [h]
    exact opInv_withEnv op f hd hp (hst _ (alLookup_mem _ _ _ hop))
  · exact hst p h

theorem setPolicyOnCurrent_cases (st : BuilderState) (f : Envelope → Envelope) :
    setPolicyOnCurrent st f = st ∨
    ∃ cid op, st.current = some cid ∧
      alLookup st.workflow.tasks cid = some op ∧
      setPolicyOnCurrent st f
        = { st with workflow :=
              { st.workflow with
                  tasks := alSet st.workflow.tasks cid (op.withEnv f) } } := by
  cases hc : st.current with
  | none =>
      refine Or.inl ?_
      unfold setPolicyOnCurrent
      rw [hc]
  | some cid =>
      cases hl : alLookup st.workflow.tasks cid with
      | none =>
          refine Or.inl ?_
          unfold setPolicyOnCurrent
          rw [hc]
          dsimp only
          rw [hl]
      | some op =>
          by_cases hto : op.isTaskOperator = true
          · refine Or.inr ⟨cid, op, rfl, hl, ?_⟩
            unfold setPolicyOnCurrent
            rw [hc]
            dsimp only
            rw [hl]
            dsimp only
            rw [if_pos hto]
          · refine Or.inl ?_
            unfold setPolicyOnCurrent
            rw [hc]
            dsimp only
            rw [hl]
            dsimp only
            rw [if_neg hto]

theorem setHookOnCurrent_cases (st : BuilderState) (f : Envelope → Envelope) :
    setHookOnCurrent st f = st ∨
    ∃ cid op, st.current = some cid ∧
      alLookup st.workflow.tasks cid = some op ∧
      setHookOnCurrent st f
        = { st with workflow :=
              { st.workflow with
                  tasks := alSet st.workflow.tasks cid (op.withEnv f) } } := by
  cases hc : st.current with
  | none =>
      refine Or.inl ?_
      unfold setHookOnCurrent
      rw [hc]
  | some cid =>
      cases hl : alLookup st.workflow.tasks cid with
      | none =>
          refine Or.inl ?_
          unfold setHookOnCurrent
          rw [hc]
          dsimp only
          rw [hl]
      | some op =>
          refine Or.inr ⟨cid, op, rfl, hl, ?_⟩
          unfold setHookOnCurrent
          rw [hc]
          dsimp only
          rw [hl]

theorem setPolicyOnCurrent_inv (st : BuilderState) (f : Envelope → Envelope)
    (hd : ∀ e, (f e).dependencies = e.dependencies)
    (hp : ∀ e, (f e).is_internal_parallel_task = e.is_internal_parallel_task)
    (hst : stInv st.workflow) : stInv (setPolicyOnCurrent st f).workflow := by
  rcases setPolicyOnCurrent_cases st f with h | ⟨cid, op, hc, hl, h⟩
  · rw [h]
    exact hst
  · rw [h]
    exact setEnv_alSet_inv st cid op f hd hp hst hl

theorem setHookOnCurrent_inv (st : BuilderState) (f : Envelope → Envelope)
    (hd : ∀ e, (f e).dependencies = e.dependencies)
    (hp : ∀ e, (f e).is_internal_parallel_task = e.is_internal_parallel_task)
    (hst : stInv st.workflow) : stInv (setHookOnCurrent st f).workflow := by
  rcases setHookOnCurrent_cases st f with h | ⟨cid, op, hc, hl, h⟩
  · rw [h]
    exact hst
  · rw [h]
    exact setEnv_alSet_inv st cid op f hd hp hst hl

theorem foldlM_builder_inv (f : BuilderState → BOp → Except String BuilderState)
    (P : BuilderState → Prop)
    (hf : ∀ s a s', f s a = .ok s' → P s → P s') :
    ∀ (l : List BOp) (s s' : BuilderState),
      l.foldlM f s = .ok s' → P s → P s' := by
  intro l
  induction l with
  | nil =>
      intro s s' h hP
      have h' : Except.ok s = .ok s' := h
      cases h'
      exact hP
  | cons a l ih =>
      intro s s' h hP
      have hstep : (a :: l).foldlM f s
          = (f s a).bind (fun s1 => l.foldlM f s1) := rfl
      rw [hstep] at h
      cases hfa : f s a with
      | error e =>
          rw [hfa] at h
          simp only [Except.bind] at h
          cases h
      | ok s1 =>
          rw [hfa] at h
          simp only [Except.bind] at h
          exact ih s1 s' h (hf s a s1 hfa hP)

theorem opInv_parflag (op : Operator) (h : opInv op) :
    op.env.is_internal_parallel_task = false := by
  cases op <;> first | exact h.2 | exact h.2.1

theorem alLookup_envelopeDump_parflag (ex : Bool) (e : Envelope)
    (rest : List (String × JValue)) :
    alLookup (envelopeDump ex e ++ rest) "is_internal_parallel_task"
      = some (.bool e.is_internal_parallel_task) := by
  simp [envelopeDump, List.append_assoc, alLookup_append, alLookup_optField_ne,
    alLookup]

/-- The variant-specific tail of an operator dump, after the envelope. -/
def variantFieldsDump (ex : Bool) : Operator → List (String × JValue)
  | .task _ fn a k =>
      [("function", .str fn), ("args", .arr a), ("kwargs", .obj k)]
  | .activity _ fn a k =>
      [("function", .str fn), ("args", .arr a), ("kwargs", .obj k)]
  | .condition _ c t f =>
      [("condition", .str c)] ++ optField ex "if_true" (t.map .str) ++
        optField ex "if_false" (f.map .str)
  | .wait _ w => [("wait_for", waitForWire w)]
  | .parallel _ branches bw timeout =>
      [("branches", .obj (branches.map (fun p => (p.1, .arr (p.2.map .str))))),
       ("branch_workflows", .obj bw)] ++
        optField ex "timeout" (timeout.map (fun n => .num (n : ℚ)))
  | .foreach _ items body par =>
      [("items", .str items),
       ("loop_body", .arr (operatorDumpList ex body)),
       ("parallel", .bool par)]
  | .whileLoop _ c body =>
      [("condition", .str c),
       ("loop_body", .arr (operatorDumpList ex body))]
  | .emitEvent _ n payload =>
      [("event_name", .str n), ("payload", .obj payload)]
  | .waitForEvent _ n t =>
      [("event_name", .str n)] ++
        optField ex "timeout_seconds" (t.map (fun x => .num (x : ℚ)))
  | .switch _ sw cases d =>
      [("switch_on", .str sw),
       ("cases", .obj (cases.map (fun p => (p.1, .str p.2))))] ++
        optField ex "default" (d.map .str)
  | .join _ tasks mode =>
      [("join_tasks", .arr (tasks.map .str)), ("join_mode", .str mode)]

theorem operatorDump_shape (ex : Bool) (op : Operator) :
    operatorDump ex op = .obj (envelopeDump ex op.env ++ variantFieldsDump ex op) := by
  cases op <;>
    (simp only [operatorDump, variantFieldsDump, Operator.env]
     try simp only [List.append_assoc])

theorem alLookup_operatorDump_parflag (ex : Bool) (op : Operator) :
    ∃ fields, operatorDump ex op = .obj fields ∧
      alLookup fields "is_internal_parallel_task"
        = some (.bool op.env.is_internal_parallel_task) := by
  exact ⟨_, operatorDump_shape ex op, alLookup_envelopeDump_parflag ex _ _⟩

theorem tasksClear_map (ts : List (String × Operator))
    (h : ∀ p ∈ ts, opInv p.2) :
    tasksClear (ts.map (fun p => (p.1, operatorDump false p.2))) := by
  induction ts with
  | nil => trivial
  | cons hd tl ih =>
      rw [List.map_cons]
      refine ⟨?_, ih (fun p hp => h p (List.mem_cons_of_mem _ hp))⟩
      obtain ⟨fields, hf, hl⟩ := alLookup_operatorDump_parflag false hd.2
      show taskDumpClear (operatorDump false hd.2)
      rw [hf]
      show alLookup fields "is_internal_parallel_task" = some (.bool false)
      rw [hl, opInv_parflag hd.2 (h hd (List.mem_cons_self _ _))]

theorem wfDumpClear_obj (fields ts : List (String × JValue))
    (hf : alLookup fields "tasks" = some (.obj ts)) (hts : tasksClear ts) :
    wfDumpClear (.obj fields) := by
  have heq : wfDumpClear (.obj fields) = tasksClear ts := by
    unfold wfDumpClear
    dsimp only
    rw [hf]
  rw [heq]
  exact hts

theorem wfDumpClear_of_stInv (wf : Workflow) (h : stInv wf) :
    wfDumpClear (toJsonTree wf) := by
  refine wfDumpClear_obj _ (wf.tasks.map (fun p => (p.1, operatorDump false p.2)))
    ?_ (tasksClear_map _ h)
  simp [alLookup]

theorem branchesClear_map (subs : List (String × BuilderState))
    (h : ∀ q ∈ subs, stInv q.2.workflow) :
    branchesClear (subs.map (fun p => (p.1, toJsonTree p.2.workflow))) := by
  induction subs with
  | nil => trivial
  | cons hd tl ih =>
      rw [List.map_cons]
      exact ⟨wfDumpClear_of_stInv _ (h hd (List.mem_cons_self _ _)),
        ih (fun q hq => h q (List.mem_cons_of_mem _ hq))⟩

/-! ## Claim theorems -/

/-- C1: the round-trip law `decode(encode(W)) == W` fails on the code for a
builder-producible workflow.  `WorkflowBuilder.activity` builds an
`ActivityOperator` whose wire tag is `"activity"`, but the decoder's
dispatch table in `Workflow.validate_tasks` has no entry for `"activity"`,
so decoding the encoding of `builder("w").activity("a", "f").build()` raises
`Unknown operator type: activity` in both wire formats instead of returning
the workflow. -/
theorem claim1_roundtrip_fails_on_activity :
    (runProgram "w" [.activity "a" "f" [] [] {}]).map
        (fun wf => (parseWorkflowTree (toYamlTree wf),
                    parseWorkflowTree (toJsonTree wf),
                    wireTaskField (toYamlTree wf) "a" "operator_type")) =
      .ok (.error "Unknown operator type: activity",
           .error "Unknown operator type: activity",
           some (.str "activity")) := by
  rfl

/-- C5: decode dispatch on `operator_type`.  The tags `task`, `condition`,
`wait`, `parallel`, `foreach`, `while`, `emit_event`, `wait_for_event`,
`switch` and `join` each construct the corresponding operator variant, and a
missing or unknown tag fails with an unknown-operator-type error — but,
contrary to the claim, the tag `"activity"` is NOT in the dispatch table of
`Workflow.validate_tasks`, so a task with `operator_type: activity` fails to
decode, yielding no workflow. -/
theorem claim5_decode_dispatch :
    decodedVariant (wfTreeWith (taskTreeWith "task" [("function", .str "f")]))
      = .ok ["task"] ∧
    decodedVariant (wfTreeWith (taskTreeWith "condition"
        [("condition", .str "c"), ("if_true", .null), ("if_false", .null)]))
      = .ok ["condition"] ∧
    decodedVariant (wfTreeWith (taskTreeWith "wait" [("wait_for", .str "x")]))
      = .ok ["wait"] ∧
    decodedVariant (wfTreeWith (taskTreeWith "parallel" [])) = .ok ["parallel"] ∧
    decodedVariant (wfTreeWith (taskTreeWith "foreach" [("items", .str "i")]))
      = .ok ["foreach"] ∧
    decodedVariant (wfTreeWith (taskTreeWith "while" [("condition", .str "c")]))
      = .ok ["while"] ∧
    decodedVariant (wfTreeWith (taskTreeWith "emit_event" [("event_name", .str "e")]))
      = .ok ["emit_event"] ∧
    decodedVariant (wfTreeWith (taskTreeWith "wait_for_event" [("event_name", .str "e")]))
      = .ok ["wait_for_event"] ∧
    decodedVariant (wfTreeWith (taskTreeWith "switch" [("switch_on", .str "s")]))
      = .ok ["switch"] ∧
    decodedVariant (wfTreeWith (taskTreeWith "join" [("join_tasks", .arr [])]))
      = .ok ["join"] ∧
    decodedVariant (wfTreeWith (taskTreeWith "activity" [("function", .str "f")]))
      = .error "Unknown operator type: activity" ∧
    decodedVariant (wfTreeWith (.obj [("task_id", .str "t")]))
      = .error "Unknown operator type: None" ∧
    decodedVariant (wfTreeWith (taskTreeWith "unknown_operator" []))
      = .error "Unknown operator type: unknown_operator" := by
  repeat' constructor

/-- C9 (counterexample): the claim's "fails if and only if the name does not
match `^[a-z][a-z0-9_]*$` …" is false at `name = ""`: the validator guards
the regex check behind `if name` (Python truthiness), so an empty name is
accepted even though it does not match the regex. -/
theorem claim9_counterexample :
    (mkWorkflow "" "2.0.0").isOk = true ∧ nameMatches "" = false :=
  ⟨rfl, rfl⟩

/-- C9 (amended): constructing a `Workflow` fails with a name-validation
error if and only if the name or version contains `__`, or the name is
non-empty and fails `^[a-z][a-z0-9_]*$`, or the version is non-empty and
fails `^[a-zA-Z0-9._-]+$` (an empty name or version bypasses its regex
check); in particular `Workflow(name="double__underscore")` is rejected, and
every accepted workflow with a non-empty name matches the name regex. -/
theorem claim9_name_validation (name version : String) :
    ((mkWorkflow name version).isOk = false ↔
      (hasDunder name = true ∨ hasDunder version = true ∨
       (name ≠ "" ∧ nameMatches name = false) ∨
       (version ≠ "" ∧ versionMatches version = false))) ∧
    ((mkWorkflow name version).isOk = true → name ≠ "" → nameMatches name = true) := by
  have hmk : (mkWorkflow name version).isOk = (validateNameVersion name version).isOk := by
    unfold mkWorkflow
    cases h : validateNameVersion name version <;>
      simp [h, Except.isOk, Except.toBool, bind, Except.bind, pure, Except.pure]
  constructor
  · rw [hmk]
    unfold validateNameVersion
    split_ifs with h1 h2 h3 h4
    · simpa [Except.isOk, Except.toBool] using Or.inl h1
    · simpa [Except.isOk, Except.toBool] using Or.inr (Or.inl h2)
    · simp only [Bool.and_eq_true, decide_eq_true_eq, Bool.not_eq_true'] at h3
      simpa [Except.isOk, Except.toBool] using Or.inr (Or.inr (Or.inl h3))
    · simp only [Bool.and_eq_true, decide_eq_true_eq, Bool.not_eq_true'] at h4
      simpa [Except.isOk, Except.toBool] using Or.inr (Or.inr (Or.inr h4))
    · simp only [Bool.and_eq_true, decide_eq_true_eq, Bool.not_eq_true'] at h3 h4
      simp only [Except.isOk, Except.toBool]
      constructor
      · intro h; cases h
      · rintro (h | h | h | h)
        · exact absurd h h1
        · exact absurd h h2
        · exact absurd h (by intro hc; exact h3 ⟨hc.1, hc.2⟩)
        · exact absurd h (by intro hc; exact h4 ⟨hc.1, hc.2⟩)
  · intro hok hne
    rw [hmk] at hok
    unfold validateNameVersion at hok
    split_ifs at hok with h1 h2 h3 h4 <;>
      simp only [Except.isOk, Except.toBool] at hok
    all_goals try exact absurd hok (by decide)
    by_cases hm : nameMatches name = true
    · exact hm
    · have hm' : nameMatches name = false := by simpa using hm
      exact absurd (by simp [hne, hm']) h3

/-- C9 witness: the amended theorem applied at the concrete inputs of the
claim: the double-underscore name is rejected, a well-formed name accepted. -/
theorem claim9_name_validation_witness :
    (mkWorkflow "double__underscore" "2.0.0").isOk = false ∧
    nameMatches "data_pipeline" = true :=
  ⟨(claim9_name_validation "double__underscore" "2.0.0").1.mpr (Or.inl (by decide)),
   (claim9_name_validation "data_pipeline" "2.0.0").2 (by decide) (by decide)⟩

/-- C8: the documented duration wire form is not what workflow serialization
emits.  For `builder("w2").wait("pause", timedelta(seconds=3600)).build()`,
the `WaitOperator.model_dump` override (and the repository's direct-call
test) document the wire value `"PT3600.0S"`, but pydantic v2 never invokes
a nested model's overridden `model_dump` during parent serialization, so
`to_yaml` and `to_json` emit pydantic-core's default ISO-8601 timedelta
form `"PT1H"`.  The override (modelled by `waitForDump`) does produce the
documented string when `model_dump()` is called on the operator directly,
and decoding the actual wire value still recovers the 3600-second duration;
only the wire string diverges. -/
theorem claim8_wait_serialization_divergence :
    ((runProgram "w2" [.wait "pause" (.dur 3600000000) {}]).map (fun wf =>
        (wireTaskField (toYamlTree wf) "pause" "wait_for",
         wireTaskField (toJsonTree wf) "pause" "wait_for",
         (parseWorkflowTree (toYamlTree wf)).map (fun w2 =>
            (alLookup w2.tasks "pause").map (fun op =>
              match op with
              | .wait _ w => some w
              | _ => none))))
      = .ok (some (.str "PT1H"), some (.str "PT1H"),
             .ok (some (some (.dur 3600000000))))) ∧
    waitForDump (.dur 3600000000) = .str "PT3600.0S" ∧
    pydanticDeltaStr 3600000000 = "PT1H" ∧
    ("PT1H" : String) ≠ "PT3600.0S" :=
  ⟨rfl, rfl, rfl, by decide⟩

/-- C3 (counterexample): an explicitly passed empty dependency list does NOT
override auto-threading.  `kwargs.get("dependencies", [])` followed by the
truthiness test `not dependencies` makes `dependencies=[]` indistinguishable
from an absent argument, so `.task("a", "f").task("b", "f",
dependencies=[])` gives `b` the dependencies `["a"]`, not
`sorted(unique([])) = []` as the claim requires. -/
theorem claim3_counterexample :
    (runProgram "w" [.task "a" "f" [] [] {},
                     .task "b" "f" [] [] { dependencies := some [] }]).map
        (fun wf => (alLookup wf.tasks "b").map Operator.deps)
      = .ok (some ["a"]) ∧ sortedDedup ([] : List String) = [] :=
  ⟨rfl, rfl⟩

/-- C3 (amended): dependency threading in `WorkflowBuilder._add_task`.  If a
non-empty explicit `dependencies=D` is passed, the new task's dependencies
are `sorted(unique(D))` and `current_task` is not added (unless it is itself
in `D`); if the explicit list is empty or absent, the builder auto-links to
`[current_task]` when a current task exists and the new task is not a
handler (referenced by some existing task's `on_success_task_id` or
`on_failure_task_id`); otherwise the dependencies are empty.  Afterwards
`current_task` is the new task's id. -/
theorem claim3_dependency_threading (st : BuilderState) (op : Operator)
    (D : Option (List String)) :
    (addTaskCore st op D).current = some op.taskId ∧
    (∀ ds, D = some ds → ds ≠ [] →
       alLookup (addTaskCore st op D).workflow.tasks op.taskId
         = some (op.withDeps (sortedDedup ds)) ∧
       (∀ c, st.current = some c → c ∉ ds →
          c ∉ (op.withDeps (sortedDedup ds)).deps)) ∧
    (∀ c, (D = none ∨ D = some []) → st.current = some c →
       isHandlerTask st.workflow op.taskId = false →
       alLookup (addTaskCore st op D).workflow.tasks op.taskId
         = some (op.withDeps [c])) ∧
    ((D = none ∨ D = some []) →
       (st.current = none ∨ isHandlerTask st.workflow op.taskId = true) →
       alLookup (addTaskCore st op D).workflow.tasks op.taskId
         = some (op.withDeps [])) := by
  have hsingle : ∀ c : String, sortedDedup [c] = [c] := by
    intro c; simp [sortedDedup, dedupStr, insertSorted]
  refine ⟨?_, ?_, ?_, ?_⟩
  · unfold addTaskCore Workflow.addTask
    simp
  · rintro ds rfl hne
    have hd : (some ds).getD [] = ds := rfl
    constructor
    · unfold addTaskCore Workflow.addTask
      simp only [hd]
      have : (match st.current with
          | some c => if ds = [] && !isHandlerTask st.workflow op.taskId
              then ds ++ [c] else ds
          | none => ds) = ds := by
        cases st.current with
        | none => rfl
        | some c => simp [hne]
      rw [this]
      simpa using alLookup_alSet_self st.workflow.tasks _ (op.withDeps (sortedDedup ds))
    · intro c _ hc
      simp only [Operator.deps_withDeps]
      exact fun hmem => hc ((mem_sortedDedup ds c).mp hmem)
  · rintro c hD hcur hnh
    have hd : D.getD [] = [] := by rcases hD with rfl | rfl <;> rfl
    unfold addTaskCore Workflow.addTask
    simp [hd, hcur, hnh, hsingle c, alLookup_alSet_self]
  · rintro hD hcase
    have hd : D.getD [] = [] := by rcases hD with rfl | rfl <;> rfl
    have hempty : sortedDedup [] = [] := rfl
    unfold addTaskCore Workflow.addTask
    rcases hcase with hnone | hh
    · simp [hd, hnone, hempty, alLookup_alSet_self]
    · cases hcur : st.current with
      | none => simp [hd, hcur, hempty, alLookup_alSet_self]
      | some c => simp [hd, hcur, hh, hempty, alLookup_alSet_self]

/-- C3 state for the witness: the builder after `.task("a", "f")`. -/
def claim3WitnessState : BuilderState :=
  addTaskCore { workflow := { name := "w" } }
    (.task { task_id := "a", operator_type := "task" } "f" [] []) none

/-- C3 witness: the amended theorem at a concrete chain `.task("a",
"f").task("b", "f")`: `b` is auto-linked to `["a"]`. -/
theorem claim3_dependency_threading_witness :
    alLookup (addTaskCore claim3WitnessState
        (.task { task_id := "b", operator_type := "task" } "f" [] []) none).workflow.tasks "b"
      = some (Operator.withDeps
          (.task { task_id := "b", operator_type := "task" } "f" [] []) ["a"]) := by
  have h := claim3_dependency_threading claim3WitnessState
    (.task { task_id := "b", operator_type := "task" } "f" [] []) none
  exact h.2.2.1 "a" (Or.inl rfl) (by rfl) (by rfl)

/-- C4 (counterexample): built workflows can hold unsorted dependency lists.
`WorkflowBuilder.condition` appends the condition's id to each branch task's
dependencies *after* `_add_task` sorted them, so
`condition("a", "c", if_true=λb: b.task("t1", "f").task("t2", "f"), …)`
leaves `t2` with dependencies `["t1", "a"]`, which is not sorted. -/
theorem claim4_counterexample :
    (runProgram "w" [.condition "a" "c"
        [.task "t1" "f" [] [] {}, .task "t2" "f" [] [] {}] [] {}]).map
        (fun wf => (alLookup wf.tasks "t2").map Operator.deps)
      = .ok (some ["t1", "a"]) ∧ isSortedLe ["t1", "a"] = false :=
  ⟨rfl, rfl⟩

/-- C7 (counterexample): nodes inside a parallel operator's branch workflows
do NOT get `is_internal_parallel_task = true` — the builder never sets that
flag anywhere, so the serialized branch task carries `false`. -/
theorem claim7_counterexample :
    (runProgram "w" [.parallel "p"
        [("api", [.task "deploy_api" "d.api" [] [] {}])] {}]).map
        (fun wf => (alLookup wf.tasks "p").map (fun op =>
          match op with
          | .parallel _ _ bw _ =>
              (alLookup bw "api").map (fun tree =>
                wireTaskField tree "deploy_api" "is_internal_parallel_task")
          | _ => none))
      = .ok (some (some (some (.bool false)))) ∧
    JValue.bool false ≠ JValue.bool true :=
  ⟨rfl, by simp⟩

/-- C10: `WorkflowBuilder.retry` and `WorkflowBuilder.timeout` mutate only
the current task's `retry_policy` (respectively `timeout_policy`), and only
when the current task is a `TaskOperator`; with no current task, or a
current task of any other variant (`ActivityOperator` is not a subclass of
`TaskOperator`), the workflow is returned with every task unchanged. -/
theorem claim10_retry_timeout_frame (fuel : Nat) (st : BuilderState)
    (mr d : Int) (bf : ℚ) (tm : Int) (kl : Bool) :
    (st.current = none →
       runOpF (fuel + 1) (.retry mr d bf) st = .ok st ∧
       runOpF (fuel + 1) (.timeoutCall tm kl) st = .ok st) ∧
    (∀ cid op, st.current = some cid →
       alLookup st.workflow.tasks cid = some op →
       op.isTaskOperator = false →
       runOpF (fuel + 1) (.retry mr d bf) st = .ok st ∧
       runOpF (fuel + 1) (.timeoutCall tm kl) st = .ok st) ∧
    (∀ cid e fn args kwargs, st.current = some cid →
       alLookup st.workflow.tasks cid = some (.task e fn args kwargs) →
       (∃ st', runOpF (fuel + 1) (.retry mr d bf) st = .ok st' ∧
          st'.current = st.current ∧
          alLookup st'.workflow.tasks cid
            = some (.task { e with retry_policy := some ⟨mr, d, bf⟩ } fn args kwargs) ∧
          (∀ k, k ≠ cid → alLookup st'.workflow.tasks k = alLookup st.workflow.tasks k) ∧
          st'.workflow.name = st.workflow.name ∧
          st'.workflow.variables' = st.workflow.variables') ∧
       (∃ st', runOpF (fuel + 1) (.timeoutCall tm kl) st = .ok st' ∧
          st'.current = st.current ∧
          alLookup st'.workflow.tasks cid
            = some (.task { e with timeout_policy := some ⟨tm, kl⟩ } fn args kwargs) ∧
          (∀ k, k ≠ cid → alLookup st'.workflow.tasks k = alLookup st.workflow.tasks k) ∧
          st'.workflow.name = st.workflow.name ∧
          st'.workflow.variables' = st.workflow.variables')) := by
  refine ⟨?_, ?_, ?_⟩
  · intro hc
    constructor <;>
      simp [runOpF, setPolicyOnCurrent, hc]
  · intro cid op hc hl hnt
    constructor <;>
      simp [runOpF, setPolicyOnCurrent, hc, hl, hnt]
  · intro cid e fn args kwargs hc hl
    have hstep : ∀ (f : Envelope → Envelope),
        setPolicyOnCurrent st f =
          { st with workflow := { st.workflow with
              tasks := alSet st.workflow.tasks cid
                ((Operator.task e fn args kwargs).withEnv f) } } := by
      intro f
      unfold setPolicyOnCurrent
      simp [hc, hl, Operator.isTaskOperator]
    constructor
    · refine ⟨setPolicyOnCurrent st (fun en => { en with retry_policy := some ⟨mr, d, bf⟩ }),
        rfl, ?_, ?_, ?_, ?_, ?_⟩
      · rw [hstep]
      · rw [hstep]
        simp [Operator.withEnv, alLookup_alSet_self]
      · intro k hk
        rw [hstep]
        simpa using alLookup_alSet_ne st.workflow.tasks cid k _ (fun he => hk he.symm)
      · rw [hstep]
      · rw [hstep]
    · refine ⟨setPolicyOnCurrent st (fun en => { en with timeout_policy := some ⟨tm, kl⟩ }),
        rfl, ?_, ?_, ?_, ?_, ?_⟩
      · rw [hstep]
      · rw [hstep]
        simp [Operator.withEnv, alLookup_alSet_self]
      · intro k hk
        rw [hstep]
        simpa using alLookup_alSet_ne st.workflow.tasks cid k _ (fun he => hk he.symm)
      · rw [hstep]
      · rw [hstep]

theorem alLookup_map_snd {α β : Type} (g : α → β) (l : List (String × α)) (k : String) :
    alLookup (l.map (fun p => (p.1, g p.2))) k = (alLookup l k).map g := by
  induction l with
  | nil => rfl
  | cons hd tl ih =>
    obtain ⟨k', v⟩ := hd
    by_cases hk : k' = k
    · subst hk; simp [alLookup]
    · simp [alLookup, hk, ih]

theorem wireTaskKeys_toJsonTree (wf : Workflow) :
    wireTaskKeys (toJsonTree wf) = alKeys wf.tasks := by
  show List.map Prod.fst (wf.tasks.map (fun p => (p.1, operatorDump false p.2)))
    = List.map Prod.fst wf.tasks
  simp

/-- The act of running one parallel branch callback: a fresh sub-builder
named `{tid}_{name.lower()}`, then the branch's chain of calls. -/
def branchRunner (r : BOp → BuilderState → Except String BuilderState)
    (tid : String) (p : String × List BOp) :
    Except String (String × BuilderState) := do
  let b0 ← freshBuilder (tid ++ "_" ++ String.mk (p.1.data.map Char.toLower))
  let b ← p.2.foldlM (fun s op => r op s) b0
  pure (p.1, b)

theorem exBind_ok {α β : Type} (a : α) (f : α → Except String β) :
    (Except.ok a >>= f) = f a := rfl

theorem exBind_error {α β : Type} (e : String) (f : α → Except String β) :
    ((Except.error e : Except String α) >>= f) = .error e := rfl

/-- Evaluating the parallel step's branch callbacks: with distinct branch
names, the harvested association list is looked up at each branch's own
run result. -/
theorem mapM_branch_lookup (fuel : Nat) (tid : String) :
    ∀ (branches : List (String × List BOp)) (subs : List (String × BuilderState)),
      branches.mapM (branchRunner (runOpF fuel) tid) = .ok subs →
      alKeys subs = alKeys branches ∧
      ((alKeys branches).Nodup →
        ∀ name prog, (name, prog) ∈ branches →
          ∃ b0 sub,
            freshBuilder (tid ++ "_" ++ String.mk (name.data.map Char.toLower)) = .ok b0 ∧
            runChain fuel prog b0 = .ok sub ∧ alLookup subs name = some sub) := by
  intro branches
  induction branches with
  | nil =>
    intro subs h
    simp only [List.mapM_nil, pure, Except.pure] at h
    cases h
    exact ⟨rfl, fun _ _ _ h => absurd h (List.not_mem_nil _)⟩
  | cons hd tl ih =>
    intro subs h
    obtain ⟨name0, prog0⟩ := hd
    rw [List.mapM_cons] at h
    have hbr : branchRunner (runOpF fuel) tid (name0, prog0) =
        (freshBuilder (tid ++ "_" ++ String.mk (name0.data.map Char.toLower))).bind
          (fun b0 => (runChain fuel prog0 b0).bind (fun b => .ok (name0, b))) := rfl
    rw [hbr] at h
    cases hb0 : freshBuilder (tid ++ "_" ++ String.mk (name0.data.map Char.toLower)) with
    | error e =>
        rw [hb0] at h
        simp only [Except.bind, exBind_error] at h
        cases h
    | ok b0 =>
        rw [hb0] at h
        simp only [Except.bind] at h
        cases hrun : runChain fuel prog0 b0 with
        | error e =>
            rw [hrun] at h
            simp only [exBind_error] at h
            cases h
        | ok sub0 =>
            rw [hrun] at h
            simp only [exBind_ok] at h
            cases hrest : tl.mapM (branchRunner (runOpF fuel) tid) with
            | error e =>
                rw [hrest] at h
                simp only [bind, Except.bind, pure, Except.pure] at h
                cases h
            | ok subs' =>
                rw [hrest] at h
                simp only [bind, Except.bind, pure, Except.pure] at h
                cases h
                obtain ⟨hkeys, hlook⟩ := ih subs' hrest
                refine ⟨by simp only [alKeys, List.map_cons] at hkeys ⊢; rw [hkeys], ?_⟩
                intro hnodup name prog hmem
                have hnd : name0 ∉ alKeys tl ∧ (alKeys tl).Nodup := by
                  have h2 : (name0 :: alKeys tl).Nodup := by
                    simpa only [alKeys, List.map_cons] using hnodup
                  exact ⟨(List.nodup_cons.mp h2).1, (List.nodup_cons.mp h2).2⟩
                rcases List.mem_cons.mp hmem with heq | hmem2
                · cases heq
                  exact ⟨b0, sub0, hb0, hrun, by simp [alLookup]⟩
                · have hne : name ≠ name0 := by
                    intro he
                    exact hnd.1 (he ▸ List.mem_map_of_mem Prod.fst hmem2)
                  obtain ⟨b1, sub1, hf, hr, hl⟩ := hlook hnd.2 name prog hmem2
                  exact ⟨b1, sub1, hf, hr, by simp [alLookup, Ne.symm hne, hl]⟩

theorem freshBuilder_stInv (n : String) (b : BuilderState)
    (h : freshBuilder n = .ok b) : stInv b.workflow := by
  intro p hp
  rw [freshBuilder_tasks n b h] at hp
  cases hp

theorem mapM_branch_inv (r : BOp → BuilderState → Except String BuilderState)
    (tid : String)
    (hr : ∀ bop s s', r bop s = .ok s' → stInv s.workflow → stInv s'.workflow) :
    ∀ (branches : List (String × List BOp)) (subs : List (String × BuilderState)),
      branches.mapM (branchRunner r tid) = .ok subs →
      ∀ q ∈ subs, stInv q.2.workflow := by
  intro branches
  induction branches with
  | nil =>
      intro subs h q hq
      simp only [List.mapM_nil, pure, Except.pure] at h
      cases h
      cases hq
  | cons hd tl ih =>
      intro subs h q hq
      obtain ⟨name0, prog0⟩ := hd
      rw [List.mapM_cons] at h
      have hbr : branchRunner r tid (name0, prog0) =
          (freshBuilder (tid ++ "_" ++ String.mk (name0.data.map Char.toLower))).bind
            (fun b0 => (prog0.foldlM (fun s op => r op s) b0).bind
              (fun b => .ok (name0, b))) := rfl
      rw [hbr] at h
      cases hb0 : freshBuilder (tid ++ "_" ++ String.mk (name0.data.map Char.toLower)) with
      | error e =>
          rw [hb0] at h
          simp only [Except.bind, exBind_error] at h
          cases h
      | ok b0 =>
          rw [hb0] at h
          simp only [Except.bind] at h
          cases hrun : prog0.foldlM (fun s op => r op s) b0 with
          | error e =>
              rw [hrun] at h
              simp only [exBind_error] at h
              cases h
          | ok sub0 =>
              rw [hrun] at h
              simp only [exBind_ok] at h
              cases hrest : tl.mapM (branchRunner r tid) with
              | error e =>
                  rw [hrest] at h
                  simp only [bind, Except.bind, pure, Except.pure] at h
                  cases h
              | ok subs' =>
                  rw [hrest] at h
                  simp only [bind, Except.bind, pure, Except.pure] at h
                  cases h
                  rcases List.mem_cons.mp hq with rfl | hq'
                  · exact foldlM_builder_inv (fun s op => r op s)
                      (fun x => stInv x.workflow)
                      (fun s a s' ha hPP => hr a s s' ha hPP)
                      prog0 b0 sub0 hrun (freshBuilder_stInv _ _ hb0)
                  · exact ih subs' hrest q hq'

/-- The induction behind C4 and C7: one builder call preserves the builder
invariant `stInv` of the workflow under construction. -/
theorem runOpF_inv :
    ∀ (fuel : Nat) (bop : BOp) (st st' : BuilderState),
      runOpF fuel bop st = .ok st' → stInv st.workflow → stInv st'.workflow := by
  intro fuel
  induction fuel with
  | zero =>
      intro bop st st' h hP
      exact absurd h (by simp [runOpF])
  | succ fuel ih =>
      intro bop st st' h hP
      cases bop with
      | task tid fn args kwargs cfg =>
          have h' : Except.ok (addTaskCore st
              (.task (cfg.toEnvelope tid "task") fn args kwargs) cfg.dependencies)
              = .ok st' := h
          cases h'
          refine addTaskCore_inv st _ _ hP ?_
          intro ds hnd
          simp only [Operator.withDeps, Operator.withEnv, opInv]
          exact ⟨hnd, rfl⟩
      | activity tid fn args kwargs cfg =>
          have h' : Except.ok (addTaskCore st
              (.activity (cfg.toEnvelope tid "activity") fn args kwargs)
              cfg.dependencies) = .ok st' := h
          cases h'
          refine addTaskCore_inv st _ _ hP ?_
          intro ds hnd
          simp only [Operator.withDeps, Operator.withEnv, opInv]
          exact ⟨hnd, rfl⟩
      | wait tid w cfg =>
          have hEq : runOpF (fuel + 1) (.wait tid w cfg) st
              = (normWaitArg w).bind (fun w' =>
                  .ok (addTaskCore st (.wait (cfg.toEnvelope tid "wait") w')
                    cfg.dependencies)) := rfl
          rw [hEq] at h
          cases hw : normWaitArg w with
          | error e =>
              rw [hw] at h
              simp only [Except.bind] at h
              cases h
          | ok w' =>
              rw [hw] at h
              simp only [Except.bind] at h
              cases h
              refine addTaskCore_inv st _ _ hP ?_
              intro ds hnd
              simp only [Operator.withDeps, Operator.withEnv, opInv]
              exact ⟨hnd, rfl⟩
      | emitEvent tid ev payload cfg =>
          have h' : Except.ok (addTaskCore st
              (.emitEvent (cfg.toEnvelope tid "emit_event") ev payload)
              cfg.dependencies) = .ok st' := h
          cases h'
          refine addTaskCore_inv st _ _ hP ?_
          intro ds hnd
          simp only [Operator.withDeps, Operator.withEnv, opInv]
          exact ⟨hnd, rfl⟩
      | waitForEvent tid ev ts cfg =>
          have h' : Except.ok (addTaskCore st
              (.waitForEvent (cfg.toEnvelope tid "wait_for_event") ev ts)
              cfg.dependencies) = .ok st' := h
          cases h'
          refine addTaskCore_inv st _ _ hP ?_
          intro ds hnd
          simp only [Operator.withDeps, Operator.withEnv, opInv]
          exact ⟨hnd, rfl⟩
      | switch tid so cases' d cfg =>
          have h' : Except.ok (addTaskCore st
              (.switch (cfg.toEnvelope tid "switch") so cases' d)
              cfg.dependencies) = .ok st' := h
          cases h'
          refine addTaskCore_inv st _ _ hP ?_
          intro ds hnd
          simp only [Operator.withDeps, Operator.withEnv, opInv]
          exact ⟨hnd, rfl⟩
      | join tid jt jm cfg =>
          have h' : Except.ok (addTaskCore st
              (.join (cfg.toEnvelope tid "join") jt jm) cfg.dependencies)
              = .ok st' := h
          cases h'
          refine addTaskCore_inv st _ _ hP ?_
          intro ds hnd
          simp only [Operator.withDeps, Operator.withEnv, opInv]
          exact ⟨hnd, rfl⟩
      | condition tid cond bt bf cfg =>
          have hEq : runOpF (fuel + 1) (.condition tid cond bt bf cfg) st
              = (freshBuilder (tid ++ "_true")).bind (fun trueB0 =>
                  (bt.foldlM (fun s op => runOpF fuel op s) trueB0).bind (fun trueB =>
                    (freshBuilder (tid ++ "_false")).bind (fun falseB0 =>
                      (bf.foldlM (fun s op => runOpF fuel op s) falseB0).bind
                        (fun falseB =>
                          .ok { workflow :=
                                  (alValues falseB.workflow.tasks).foldl
                                    (fun acc t => acc.addTask (appendDep tid t))
                                    ((alValues trueB.workflow.tasks).foldl
                                      (fun acc t => acc.addTask (appendDep tid t))
                                      (addTaskCore st
                                        (Operator.condition
                                          (cfg.toEnvelope tid "condition") cond
                                          (alKeys trueB.workflow.tasks).head?
                                          (alKeys falseB.workflow.tasks).head?)
                                        cfg.dependencies).workflow),
                                current := some tid })))) := rfl
          rw [hEq] at h
          cases htb0 : freshBuilder (tid ++ "_true") with
          | error e =>
              rw [htb0] at h
              simp only [Except.bind] at h
              cases h
          | ok trueB0 =>
              rw [htb0] at h
              simp only [Except.bind] at h
              cases htb : bt.foldlM (fun s op => runOpF fuel op s) trueB0 with
              | error e =>
                  rw [htb] at h
                  simp only [Except.bind] at h
                  cases h
              | ok trueB =>
                  rw [htb] at h
                  simp only [Except.bind] at h
                  cases hfb0 : freshBuilder (tid ++ "_false") with
                  | error e =>
                      rw [hfb0] at h
                      simp only [Except.bind] at h
                      cases h
                  | ok falseB0 =>
                      rw [hfb0] at h
                      simp only [Except.bind] at h
                      cases hfb : bf.foldlM (fun s op => runOpF fuel op s) falseB0 with
                      | error e =>
                          rw [hfb] at h
                          simp only [Except.bind] at h
                          cases h
                      | ok falseB =>
                          rw [hfb] at h
                          simp only [Except.bind] at h
                          cases h
                          have hTrue : stInv trueB.workflow :=
                            foldlM_builder_inv _ (fun x => stInv x.workflow)
                              (fun s a s' ha hPP => ih a s s' ha hPP)
                              bt trueB0 trueB htb (freshBuilder_stInv _ _ htb0)
                          have hFalse : stInv falseB.workflow :=
                            foldlM_builder_inv _ (fun x => stInv x.workflow)
                              (fun s a s' ha hPP => ih a s s' ha hPP)
                              bf falseB0 falseB hfb (freshBuilder_stInv _ _ hfb0)
                          have hSt1 : stInv (addTaskCore st
                              (Operator.condition (cfg.toEnvelope tid "condition")
                                cond (alKeys trueB.workflow.tasks).head?
                                (alKeys falseB.workflow.tasks).head?)
                              cfg.dependencies).workflow := by
                            refine addTaskCore_inv st _ _ hP ?_
                            intro ds hnd
                            simp only [Operator.withDeps, Operator.withEnv, opInv]
                            exact ⟨hnd, rfl⟩
                          refine foldl_addTask_append_inv tid _ _ (fun t ht => ?_)
                            (foldl_addTask_append_inv tid _ _ (fun t ht => ?_) hSt1)
                          · obtain ⟨p, hp, hpv⟩ := List.mem_map.mp ht
                            exact hpv ▸ hFalse p hp
                          · obtain ⟨p, hp, hpv⟩ := List.mem_map.mp ht
                            exact hpv ▸ hTrue p hp
      | parallel tid branches cfg =>
          have hEq : runOpF (fuel + 1) (.parallel tid branches cfg) st
              = (branches.mapM (branchRunner (runOpF fuel) tid)).bind (fun subs =>
                  .ok { addTaskCore st
                      (Operator.parallel (cfg.toEnvelope tid "parallel")
                        (subs.map (fun p => (p.1, alKeys p.2.workflow.tasks)))
                        (subs.map (fun p => (p.1, toJsonTree p.2.workflow))) none)
                      cfg.dependencies with current := some tid }) := rfl
          rw [hEq] at h
          cases hsubs : branches.mapM (branchRunner (runOpF fuel) tid) with
          | error e =>
              rw [hsubs] at h
              simp only [Except.bind] at h
              cases h
          | ok subs =>
              rw [hsubs] at h
              simp only [Except.bind] at h
              cases h
              have hsubInv : ∀ q ∈ subs, stInv q.2.workflow :=
                mapM_branch_inv (runOpF fuel) tid
                  (fun bop s s' ha hPP => ih bop s s' ha hPP) branches subs hsubs
              refine addTaskCore_inv st _ _ hP ?_
              intro ds hnd
              simp only [Operator.withDeps, Operator.withEnv, opInv]
              exact ⟨hnd, rfl, branchesClear_map subs hsubInv⟩
      | foreach tid items body cfg =>
          have hEq : runOpF (fuel + 1) (.foreach tid items body cfg) st
              = (freshBuilder (tid ++ "_loop")).bind (fun b0 =>
                  (body.foldlM (fun s op => runOpF fuel op s) b0).bind (fun b =>
                    .ok { workflow :=
                            (loopBodyTasks tid b).foldl Workflow.addTask
                              (addTaskCore st
                                (Operator.foreach (cfg.toEnvelope tid "foreach")
                                  items (loopBodyTasks tid b) false)
                                cfg.dependencies).workflow,
                          current := some tid })) := rfl
          rw [hEq] at h
          cases hb0 : freshBuilder (tid ++ "_loop") with
          | error e =>
              rw [hb0] at h
              simp only [Except.bind] at h
              cases h
          | ok b0 =>
              rw [hb0] at h
              simp only [Except.bind] at h
              cases hb : body.foldlM (fun s op => runOpF fuel op s) b0 with
              | error e =>
                  rw [hb] at h
                  simp only [Except.bind] at h
                  cases h
              | ok b =>
                  rw [hb] at h
                  simp only [Except.bind] at h
                  cases h
                  have hbInv : stInv b.workflow :=
                    foldlM_builder_inv _ (fun x => stInv x.workflow)
                      (fun s a s' ha hPP => ih a s s' ha hPP)
                      body b0 b hb (freshBuilder_stInv _ _ hb0)
                  have hBody : bodyInv (loopBodyTasks tid b) :=
                    bodyInv_loopBodyTasks tid b hbInv
                  have hSt1 : stInv (addTaskCore st
                      (Operator.foreach (cfg.toEnvelope tid "foreach") items
                        (loopBodyTasks tid b) false) cfg.dependencies).workflow := by
                    refine addTaskCore_inv st _ _ hP ?_
                    intro ds hnd
                    simp only [Operator.withDeps, Operator.withEnv, opInv]
                    exact ⟨hnd, rfl, hBody⟩
                  exact foldl_addTask_inv _ _
                    (fun t ht => (bodyInv_mem _ hBody t ht).2) hSt1
      | whileLoop tid cond body cfg =>
          have hEq : runOpF (fuel + 1) (.whileLoop tid cond body cfg) st
              = (freshBuilder (tid ++ "_loop")).bind (fun b0 =>
                  (body.foldlM (fun s op => runOpF fuel op s) b0).bind (fun b =>
                    .ok { workflow :=
                            (loopBodyTasks tid b).foldl Workflow.addTask
                              (addTaskCore st
                                (Operator.whileLoop (cfg.toEnvelope tid "while")
                                  cond (loopBodyTasks tid b))
                                cfg.dependencies).workflow,
                          current := some tid })) := rfl
          rw [hEq] at h
          cases hb0 : freshBuilder (tid ++ "_loop") with
          | error e =>
              rw [hb0] at h
              simp only [Except.bind] at h
              cases h
          | ok b0 =>
              rw [hb0] at h
              simp only [Except.bind] at h
              cases hb : body.foldlM (fun s op => runOpF fuel op s) b0 with
              | error e =>
                  rw [hb] at h
                  simp only [Except.bind] at h
                  cases h
              | ok b =>
                  rw [hb] at h
                  simp only [Except.bind] at h
                  cases h
                  have hbInv : stInv b.workflow :=
                    foldlM_builder_inv _ (fun x => stInv x.workflow)
                      (fun s a s' ha hPP => ih a s s' ha hPP)
                      body b0 b hb (freshBuilder_stInv _ _ hb0)
                  have hBody : bodyInv (loopBodyTasks tid b) :=
                    bodyInv_loopBodyTasks tid b hbInv
                  have hSt1 : stInv (addTaskCore st
                      (Operator.whileLoop (cfg.toEnvelope tid "while") cond
                        (loopBodyTasks tid b)) cfg.dependencies).workflow := by
                    refine addTaskCore_inv st _ _ hP ?_
                    intro ds hnd
                    simp only [Operator.withDeps, Operator.withEnv, opInv]
                    exact ⟨hnd, rfl, hBody⟩
                  exact foldl_addTask_inv _ _
                    (fun t ht => (bodyInv_mem _ hBody t ht).2) hSt1
      | retry mr d bf =>
          have h' : Except.ok (setPolicyOnCurrent st
              (fun e => { e with retry_policy := some ⟨mr, d, bf⟩ })) = .ok st' := h
          cases h'
          exact setPolicyOnCurrent_inv st _ (fun e => rfl) (fun e => rfl) hP
      | timeoutCall t k =>
          have h' : Except.ok (setPolicyOnCurrent st
              (fun e => { e with timeout_policy := some ⟨t, k⟩ })) = .ok st' := h
          cases h'
          exact setPolicyOnCurrent_inv st _ (fun e => rfl) (fun e => rfl) hP
      | onSuccess sid =>
          have h' : Except.ok (setHookOnCurrent st
              (fun e => { e with on_success_task_id := some sid })) = .ok st' := h
          cases h'
          exact setHookOnCurrent_inv st _ (fun e => rfl) (fun e => rfl) hP
      | onFailure fid =>
          have h' : Except.ok (setHookOnCurrent st
              (fun e => { e with on_failure_task_id := some fid })) = .ok st' := h
          cases h'
          exact setHookOnCurrent_inv st _ (fun e => rfl) (fun e => rfl) hP
      | setVariables vars =>
          have h' : Except.ok { st with workflow :=
              { st.workflow with
                  variables' :=
                    vars.foldl (fun acc p => alSet acc p.1 p.2)
                      st.workflow.variables' } } = .ok st' := h
          cases h'
          exact hP

/-- C2: parallel is fork-only.  After a `parallel(task_id, branches)` call
the parent's task map gains exactly the parallel operator (so no freshly
named branch task appears in it); for each branch, `branch_workflows[name]`
is the complete serialized branch sub-workflow, whose `tasks` mapping has
exactly the branch's task ids as keys, and `branches[name]` is the list of
those task ids; afterwards `current_task` is the parallel operator's id. -/
theorem claim2_parallel_fork_only (fuel : Nat) (st : BuilderState) (tid : String)
    (branches : List (String × List BOp)) (cfg : OpConfig) (st' : BuilderState)
    (h : runOpF (fuel + 1) (.parallel tid branches cfg) st = .ok st') :
    st'.current = some tid ∧
    (∀ k, k ∈ alKeys st'.workflow.tasks ↔ k = tid ∨ k ∈ alKeys st.workflow.tasks) ∧
    (∀ k, k ∉ alKeys st.workflow.tasks → k ≠ tid → k ∉ alKeys st'.workflow.tasks) ∧
    ((alKeys branches).Nodup →
      ∀ name prog, (name, prog) ∈ branches →
        ∃ b0 sub,
          freshBuilder (tid ++ "_" ++ String.mk (name.data.map Char.toLower)) = .ok b0 ∧
          runChain fuel prog b0 = .ok sub ∧
          ∃ env br bw timeout,
            alLookup st'.workflow.tasks tid = some (.parallel env br bw timeout) ∧
            alLookup br name = some (alKeys sub.workflow.tasks) ∧
            alLookup bw name = some (toJsonTree sub.workflow) ∧
            wireTaskKeys (toJsonTree sub.workflow) = alKeys sub.workflow.tasks) := by
  have hEq : runOpF (fuel + 1) (.parallel tid branches cfg) st
      = (branches.mapM (branchRunner (runOpF fuel) tid)).bind (fun subs =>
          .ok { addTaskCore st
              (Operator.parallel (cfg.toEnvelope tid "parallel")
                (subs.map (fun p => (p.1, alKeys p.2.workflow.tasks)))
                (subs.map (fun p => (p.1, toJsonTree p.2.workflow))) none)
              cfg.dependencies with current := some tid }) := rfl
  rw [hEq] at h
  cases hsubs : branches.mapM (branchRunner (runOpF fuel) tid) with
  | error e =>
      rw [hsubs] at h
      simp only [Except.bind] at h
      cases h
  | ok subs =>
      rw [hsubs] at h
      simp only [Except.bind] at h
      cases h
      obtain ⟨hkeys, hlook⟩ := mapM_branch_lookup fuel tid branches subs hsubs
      have htasks : ∀ (op : Operator),
          (addTaskCore st op cfg.dependencies).workflow.tasks
            = alSet st.workflow.tasks op.taskId
                (op.withDeps (sortedDedup
                  (match st.current with
                   | some c =>
                       if (cfg.dependencies.getD []) = [] &&
                           !isHandlerTask st.workflow op.taskId
                       then (cfg.dependencies.getD []) ++ [c]
                       else (cfg.dependencies.getD [])
                   | none => cfg.dependencies.getD []))) := by
        intro op
        unfold addTaskCore Workflow.addTask
        simp
      have htid : (Operator.parallel (cfg.toEnvelope tid "parallel")
          (subs.map (fun p => (p.1, alKeys p.2.workflow.tasks)))
          (subs.map (fun p => (p.1, toJsonTree p.2.workflow))) none).taskId = tid := rfl
      refine ⟨rfl, ?_, ?_, ?_⟩
      · intro k
        show k ∈ alKeys ((addTaskCore st _ cfg.dependencies).workflow.tasks) ↔ _
        rw [htasks, alKeys_alSet, htid]
        by_cases hmem : tid ∈ alKeys st.workflow.tasks
        · rw [if_pos hmem]
          constructor
          · exact Or.inr
          · rintro (rfl | hk)
            · exact hmem
            · exact hk
        · rw [if_neg hmem]
          simp [or_comm]
      · intro k hknot hkne hkmem
        show False
        revert hkmem
        show k ∈ alKeys ((addTaskCore st _ cfg.dependencies).workflow.tasks) → False
        rw [htasks, alKeys_alSet, htid]
        intro hkmem
        by_cases hmem : tid ∈ alKeys st.workflow.tasks
        · rw [if_pos hmem] at hkmem
          exact hknot hkmem
        · rw [if_neg hmem] at hkmem
          rcases List.mem_append.mp hkmem with hk | hk
          · exact hknot hk
          · exact hkne (by simpa using hk)
      · intro hnodup name prog hmem
        obtain ⟨b0, sub, hb0, hrun, hl⟩ := hlook hnodup name prog hmem
        obtain ⟨env, hself⟩ : ∃ env,
            alLookup ((addTaskCore st (Operator.parallel (cfg.toEnvelope tid "parallel")
              (subs.map (fun p => (p.1, alKeys p.2.workflow.tasks)))
              (subs.map (fun p => (p.1, toJsonTree p.2.workflow))) none)
              cfg.dependencies).workflow.tasks) tid
            = some (Operator.parallel env
                (subs.map (fun p => (p.1, alKeys p.2.workflow.tasks)))
                (subs.map (fun p => (p.1, toJsonTree p.2.workflow))) none) := by
          rw [htasks, htid]
          exact ⟨_, alLookup_alSet_self _ _ _⟩
        refine ⟨b0, sub, hb0, hrun, env,
          subs.map (fun p => (p.1, alKeys p.2.workflow.tasks)),
          subs.map (fun p => (p.1, toJsonTree p.2.workflow)), none, hself, ?_, ?_,
          wireTaskKeys_toJsonTree sub.workflow⟩
        · rw [alLookup_map_snd (fun b : BuilderState => alKeys b.workflow.tasks)
            subs name, hl]
          rfl
        · rw [alLookup_map_snd (fun b : BuilderState => toJsonTree b.workflow) subs name,
            hl]
          rfl

/-- C2 witness branches: one branch named `API` with a single task. -/
def claim2Branches : List (String × List BOp) :=
  [("API", [.task "deploy_api" "g" [] [] {}])]

/-- C2 witness start state: the builder after `.task("p", "f")`. -/
def claim2WitnessState : BuilderState :=
  addTaskCore { workflow := { name := "w" } }
    (.task { task_id := "p", operator_type := "task" } "f" [] []) none

/-- C2 witness result: the builder state after the `parallel` call. -/
def claim2WitnessOut : BuilderState :=
  (runOpF 2 (.parallel "fan" claim2Branches {}) claim2WitnessState).toOption.getD
    claim2WitnessState

/-- C2 witness: the S4-style run (`task p`, then `parallel fan` with one
branch `API` containing `deploy_api`).  The parent map gains exactly `fan`,
`deploy_api` stays out of it, and the branch sub-workflow appears serialized
under `branch_workflows["API"]`. -/
theorem claim2_parallel_fork_only_witness :
    claim2WitnessOut.current = some "fan" ∧
    (∀ k, k ∈ alKeys claim2WitnessOut.workflow.tasks ↔
       k = "fan" ∨ k ∈ alKeys claim2WitnessState.workflow.tasks) ∧
    (∀ k, k ∉ alKeys claim2WitnessState.workflow.tasks → k ≠ "fan" →
       k ∉ alKeys claim2WitnessOut.workflow.tasks) ∧
    ((alKeys claim2Branches).Nodup →
      ∀ name prog, (name, prog) ∈ claim2Branches →
        ∃ b0 sub,
          freshBuilder ("fan" ++ "_" ++ String.mk (name.data.map Char.toLower))
            = .ok b0 ∧
          runChain 1 prog b0 = .ok sub ∧
          ∃ env br bw timeout,
            alLookup claim2WitnessOut.workflow.tasks "fan"
              = some (.parallel env br bw timeout) ∧
            alLookup br name = some (alKeys sub.workflow.tasks) ∧
            alLookup bw name = some (toJsonTree sub.workflow) ∧
            wireTaskKeys (toJsonTree sub.workflow) = alKeys sub.workflow.tasks) :=
  claim2_parallel_fork_only 1 claim2WitnessState "fan" claim2Branches {}
    claim2WitnessOut rfl

/-- C6: loop-body attachment for `foreach` and `while_loop`.  The callback
body runs in a fresh sub-builder `b`; the container operator stored under
`tid` carries exactly `loopBodyTasks tid b` as its `loop_body`; every one of
those body tasks is also added to the parent task map; and only the first
body task has the container id appended to its dependencies, while each
later body task keeps exactly the dependencies the sub-builder threaded
(its dependency list equals the corresponding sub-builder task's). -/
theorem claim6_loop_body_attachment (fuel : Nat) (st : BuilderState)
    (tid items cond : String) (body : List BOp) (cfg : OpConfig)
    (stF stW : BuilderState)
    (hF : runOpF (fuel + 1) (.foreach tid items body cfg) st = .ok stF)
    (hW : runOpF (fuel + 1) (.whileLoop tid cond body cfg) st = .ok stW) :
    ∃ b0 b, freshBuilder (tid ++ "_loop") = .ok b0 ∧
      runChain fuel body b0 = .ok b ∧
      stF.current = some tid ∧ stW.current = some tid ∧
      (tid ∉ (loopBodyTasks tid b).map Operator.taskId →
        (∃ env, alLookup stF.workflow.tasks tid
           = some (.foreach env items (loopBodyTasks tid b) false)) ∧
        (∃ env, alLookup stW.workflow.tasks tid
           = some (.whileLoop env cond (loopBodyTasks tid b)))) ∧
      (((loopBodyTasks tid b).map Operator.taskId).Nodup →
        ∀ t ∈ loopBodyTasks tid b,
          alLookup stF.workflow.tasks t.taskId = some t ∧
          alLookup stW.workflow.tasks t.taskId = some t) ∧
      (∀ first rest,
        (alValues b.workflow.tasks).map Operator.markInternalLoop = first :: rest →
        loopBodyTasks tid b = appendDep tid first :: rest ∧
        (tid ∉ first.deps → (appendDep tid first).deps = first.deps ++ [tid]) ∧
        (alValues b.workflow.tasks).map Operator.deps
          = first.deps :: rest.map Operator.deps) := by
  have hEqF : runOpF (fuel + 1) (.foreach tid items body cfg) st
      = (freshBuilder (tid ++ "_loop")).bind (fun b0 =>
          (body.foldlM (fun s op => runOpF fuel op s) b0).bind (fun b =>
            .ok { workflow :=
                    (loopBodyTasks tid b).foldl Workflow.addTask
                      (addTaskCore st
                        (Operator.foreach (cfg.toEnvelope tid "foreach") items
                          (loopBodyTasks tid b) false) cfg.dependencies).workflow,
                  current := some tid })) := rfl
  have hEqW : runOpF (fuel + 1) (.whileLoop tid cond body cfg) st
      = (freshBuilder (tid ++ "_loop")).bind (fun b0 =>
          (body.foldlM (fun s op => runOpF fuel op s) b0).bind (fun b =>
            .ok { workflow :=
                    (loopBodyTasks tid b).foldl Workflow.addTask
                      (addTaskCore st
                        (Operator.whileLoop (cfg.toEnvelope tid "while") cond
                          (loopBodyTasks tid b)) cfg.dependencies).workflow,
                  current := some tid })) := rfl
  rw [hEqF] at hF
  rw [hEqW] at hW
  cases hb0 : freshBuilder (tid ++ "_loop") with
  | error e =>
      rw [hb0] at hF
      simp only [Except.bind] at hF
      cases hF
  | ok b0 =>
      rw [hb0] at hF hW
      simp only [Except.bind] at hF hW
      cases hb : body.foldlM (fun s op => runOpF fuel op s) b0 with
      | error e =>
          rw [hb] at hF
          simp only [Except.bind] at hF
          cases hF
      | ok b =>
          rw [hb] at hF hW
          simp only [Except.bind] at hF hW
          cases hF
          cases hW
          refine ⟨b0, b, rfl, hb, rfl, rfl, ?_, ?_, ?_⟩
          · intro htid
            constructor
            · rw [foldl_addTask_lookup_notmem _ _ _ htid]
              exact ⟨_, alLookup_alSet_self st.workflow.tasks tid _⟩
            · rw [foldl_addTask_lookup_notmem _ _ _ htid]
              exact ⟨_, alLookup_alSet_self st.workflow.tasks tid _⟩
          · intro hnd t ht
            exact ⟨foldl_addTask_lookup_mem _ _ hnd t ht,
              foldl_addTask_lookup_mem _ _ hnd t ht⟩
          · intro first rest hmk
            refine ⟨?_, ?_, ?_⟩
            · show loopBodyTasks tid b = _
              unfold loopBodyTasks
              rw [hmk]
            · intro hnotin
              simp [appendDep, hnotin]
            · have hdm : ((alValues b.workflow.tasks).map
                  Operator.markInternalLoop).map Operator.deps
                  = (alValues b.workflow.tasks).map Operator.deps := by
                rw [List.map_map]
                simp [Function.comp]
              rw [← hdm, hmk, List.map_cons]

/-- C6 witness body: two plain tasks `x` then `y`. -/
def claim6Body : List BOp := [.task "x" "f" [] [] {}, .task "y" "g" [] [] {}]

/-- C6 witness start state: the builder after `.task("p", "f")`. -/
def claim6Start : BuilderState :=
  addTaskCore { workflow := { name := "w" } }
    (.task { task_id := "p", operator_type := "task" } "f" [] []) none

/-- C6 witness result of the `foreach` call. -/
def claim6OutF : BuilderState :=
  (runOpF 2 (.foreach "fe" "items" claim6Body {}) claim6Start).toOption.getD
    claim6Start

/-- C6 witness result of the `while_loop` call. -/
def claim6OutW : BuilderState :=
  (runOpF 2 (.whileLoop "fe" "c" claim6Body {}) claim6Start).toOption.getD
    claim6Start

/-- C6 witness: concrete `foreach`/`while_loop` runs with body `[x, y]`. -/
theorem claim6_loop_body_attachment_witness :
    ∃ b0 b, freshBuilder ("fe" ++ "_loop") = .ok b0 ∧
      runChain 1 claim6Body b0 = .ok b ∧
      claim6OutF.current = some "fe" ∧ claim6OutW.current = some "fe" ∧
      ("fe" ∉ (loopBodyTasks "fe" b).map Operator.taskId →
        (∃ env, alLookup claim6OutF.workflow.tasks "fe"
           = some (.foreach env "items" (loopBodyTasks "fe" b) false)) ∧
        (∃ env, alLookup claim6OutW.workflow.tasks "fe"
           = some (.whileLoop env "c" (loopBodyTasks "fe" b)))) ∧
      (((loopBodyTasks "fe" b).map Operator.taskId).Nodup →
        ∀ t ∈ loopBodyTasks "fe" b,
          alLookup claim6OutF.workflow.tasks t.taskId = some t ∧
          alLookup claim6OutW.workflow.tasks t.taskId = some t) ∧
      (∀ first rest,
        (alValues b.workflow.tasks).map Operator.markInternalLoop = first :: rest →
        loopBodyTasks "fe" b = appendDep "fe" first :: rest ∧
        ("fe" ∉ first.deps → (appendDep "fe" first).deps = first.deps ++ ["fe"]) ∧
        (alValues b.workflow.tasks).map Operator.deps
          = first.deps :: rest.map Operator.deps) :=
  claim6_loop_body_attachment 1 claim6Start "fe" "items" "c" claim6Body {}
    claim6OutF claim6OutW rfl rfl

/-- C10 state for the witness: the builder after `.task("a", "f")`. -/
def claim10WitnessState : BuilderState :=
  addTaskCore { workflow := { name := "w" } }
    (.task { task_id := "a", operator_type := "task" } "f" [] []) none

/-- C10 witness: `retry` on a current `TaskOperator` sets exactly its
`retry_policy`, leaving the rest of the workflow unchanged. -/
theorem claim10_retry_timeout_frame_witness :
    ∃ st', runOpF 1 (.retry 7 1000000 3) claim10WitnessState = .ok st' ∧
      st'.current = claim10WitnessState.current ∧
      alLookup st'.workflow.tasks "a"
        = some (.task { task_id := "a", operator_type := "task",
                        retry_policy := some ⟨7, 1000000, 3⟩ } "f" [] []) ∧
      (∀ k, k ≠ "a" →
         alLookup st'.workflow.tasks k
           = alLookup claim10WitnessState.workflow.tasks k) ∧
      st'.workflow.name = claim10WitnessState.workflow.name ∧
      st'.workflow.variables' = claim10WitnessState.workflow.variables' :=
  ((claim10_retry_timeout_frame 0 claim10WitnessState 7 1000000 3 0 true).2.2
    "a" { task_id := "a", operator_type := "task" } "f" [] [] rfl rfl).1

theorem branchesClear_mem (l : List (String × JValue)) (h : branchesClear l) :
    ∀ q ∈ l, wfDumpClear q.2 := by
  induction l with
  | nil => intro q hq; cases hq
  | cons hd tl ih =>
      intro q hq
      rcases List.mem_cons.mp hq with rfl | hq'
      · exact h.1
      · exact ih h.2 q hq'

theorem runChain_inv (fuel : Nat) (ops : List BOp) (s s' : BuilderState)
    (h : runChain fuel ops s = .ok s') (hP : stInv s.workflow) :
    stInv s'.workflow :=
  foldlM_builder_inv _ (fun x => stInv x.workflow)
    (fun s a s' ha hPP => runOpF_inv fuel a s s' ha hPP) ops s s' h hP

theorem buildWorkflow_tasks (st : BuilderState) (wf : Workflow)
    (h : buildWorkflow st = .ok wf) : wf.tasks = st.workflow.tasks := by
  unfold buildWorkflow at h
  cases hc : checkHandlerRefs (alKeys st.workflow.tasks) st.workflow.tasks with
  | error e =>
      rw [hc] at h
      simp only [Except.bind] at h
      cases h
  | ok u =>
      rw [hc] at h
      simp only [Except.bind, pure, Except.pure] at h
      split at h <;> (cases h; rfl)

theorem runProgram_inv (name : String) (prog : List BOp) (wf : Workflow)
    (h : runProgram name prog = .ok wf) : ∀ p ∈ wf.tasks, opInv p.2 := by
  unfold runProgram at h
  cases h0 : freshBuilder name with
  | error e =>
      rw [h0] at h
      simp only [bind, Except.bind] at h
      cases h
  | ok st0 =>
      rw [h0] at h
      simp only [bind, Except.bind] at h
      cases h1 : runChain (sizeBList prog + 1) prog st0 with
      | error e =>
          rw [h1] at h
          simp only [bind, Except.bind] at h
          cases h
      | ok st =>
          rw [h1] at h
          simp only [bind, Except.bind] at h
          have hInv : stInv st.workflow :=
            runChain_inv _ _ _ _ h1 (freshBuilder_stInv _ _ h0)
          intro p hp
          rw [buildWorkflow_tasks st wf h] at hp
          exact hInv p hp

/-- C4 (amended): in every workflow returned by `build()`, every task's
dependency list contains no duplicates (the sortedness half of the original
claim fails: `condition`/`foreach`/`while_loop` append the container id
after the sorted-dedup normalization, see the counterexample). -/
theorem claim4_dependencies_nodup (name : String) (prog : List BOp)
    (wf : Workflow) (h : runProgram name prog = .ok wf) :
    ∀ p ∈ wf.tasks, p.2.deps.Nodup :=
  fun p hp => opInv_deps_nodup p.2 (runProgram_inv name prog wf h p hp)

/-- C4 witness program: a plain task followed by a `foreach` with a body. -/
def claim4WitnessProg : List BOp :=
  [.task "t1" "f" [] [] {}, .foreach "fe" "xs" [.task "a" "g" [] [] {}] {}]

/-- C4 witness workflow: the result of building the witness program. -/
def claim4WitnessWf : Workflow :=
  (runProgram "w" claim4WitnessProg).toOption.getD { name := "w" }

/-- C4 witness: the built witness workflow's tasks all have duplicate-free
dependency lists. -/
theorem claim4_dependencies_nodup_witness :
    claim4WitnessWf.tasks.Forall (fun p => p.2.deps.Nodup) :=
  List.forall_iff_forall_mem.mpr
    (claim4_dependencies_nodup "w" claim4WitnessProg claim4WitnessWf rfl)

/-- C7 (amended): in every workflow returned by `build()`, every member of a
`foreach`/`while` operator's `loop_body` has `is_internal_loop_task = true`;
but `is_internal_parallel_task` is never set: it is `false` on every stored
task, on every loop-body member, and on every task inside a parallel
operator's serialized `branch_workflows`. -/
theorem claim7_internal_flags (name : String) (prog : List BOp)
    (wf : Workflow) (h : runProgram name prog = .ok wf) :
    ∀ p ∈ wf.tasks,
      p.2.env.is_internal_parallel_task = false ∧
      (∀ e items body par, p.2 = .foreach e items body par →
        ∀ t ∈ body, t.env.is_internal_loop_task = true ∧
          t.env.is_internal_parallel_task = false) ∧
      (∀ e c body, p.2 = .whileLoop e c body →
        ∀ t ∈ body, t.env.is_internal_loop_task = true ∧
          t.env.is_internal_parallel_task = false) ∧
      (∀ e br bw timeout, p.2 = .parallel e br bw timeout →
        ∀ q ∈ bw, wfDumpClear q.2) := by
  intro p hp
  have hop : opInv p.2 := runProgram_inv name prog wf h p hp
  refine ⟨opInv_parflag _ hop, ?_, ?_, ?_⟩
  · intro e items body par hpe t ht
    rw [hpe] at hop
    have hm := bodyInv_mem body hop.2.2 t ht
    exact ⟨hm.1, opInv_parflag t hm.2⟩
  · intro e c body hpe t ht
    rw [hpe] at hop
    have hm := bodyInv_mem body hop.2.2 t ht
    exact ⟨hm.1, opInv_parflag t hm.2⟩
  · intro e br bw timeout hpe q hq
    rw [hpe] at hop
    exact branchesClear_mem bw hop.2.2 q hq

/-- C7 witness program: a `foreach` with a body task, then a `parallel` with
one branch. -/
def claim7WitnessProg : List BOp :=
  [.foreach "fe" "xs" [.task "a" "g" [] [] {}] {},
   .parallel "fan" [("B", [.task "pb" "h" [] [] {}])] {}]

/-- C7 witness workflow: the result of building the witness program. -/
def claim7WitnessWf : Workflow :=
  (runProgram "w" claim7WitnessProg).toOption.getD { name := "w" }

/-- C7 witness: the flag facts hold of the built witness workflow. -/
theorem claim7_internal_flags_witness :
    claim7WitnessWf.tasks.Forall (fun p =>
      p.2.env.is_internal_parallel_task = false ∧
      (∀ e items body par, p.2 = .foreach e items body par →
        ∀ t ∈ body, t.env.is_internal_loop_task = true ∧
          t.env.is_internal_parallel_task = false) ∧
      (∀ e c body, p.2 = .whileLoop e c body →
        ∀ t ∈ body, t.env.is_internal_loop_task = true ∧
          t.env.is_internal_parallel_task = false) ∧
      (∀ e br bw timeout, p.2 = .parallel e br bw timeout →
        ∀ q ∈ bw, wfDumpClear q.2)) :=
  List.forall_iff_forall_mem.mpr
    (claim7_internal_flags "w" claim7WitnessProg claim7WitnessWf rfl)

end HighwayDSL
